import Mathlib

/-!
Verification of the history-game per-tick agent update pipeline.

This file gives a shallow embedding, in Lean 4, of the core data model and
per-tick operations of the history-game C++ repository, and proves (or
refutes) the frozen claims about them.

Conventions of the embedding:
* C++ `float` scalars are embedded as exact rationals `ℚ`; the source's
  arithmetic on the values relevant to the claims is exact, so the rational
  model coincides with the float model on every concrete scenario considered.
* C++ `uint64_t`/`uint32_t`/`size_t` counters are embedded as `ℕ`;
  the spec (§4.8) explicitly ignores counter overflow.
* `std::vector<T::ref_type>` (reference-counted handles to immutable
  records) are embedded as `List T` of immutable values: the handles are
  never compared by address in the embedded code paths, only dereferenced,
  so value semantics is faithful.
* Where the source computes `std::sqrt(d2) <= R` we embed the equivalent
  exact test `d2 ≤ R*R` (both sides nonnegative, `Real.sqrt` monotone); a
  bridging lemma `sqrt_le_iff_sq_le` is proved to justify the step.
* The source's stochastic draws come from `std::mt19937` generators seeded
  from `std::random_device` (`action_selection.h` seeds a fresh generator
  per call; `action_execution.h` keeps one static generator).  No seed is
  an input of the computation, so the draws are modelled by an explicit
  `entropy` argument that is *not* a function of world, parameters or seed.
-/

namespace HistoryGame

/-- 2-D world position, `position.h` (`float x; float y;`). -/
structure Position where
  x : ℚ
  y : ℚ
deriving DecidableEq, Repr

/-- The closed set of drive kinds, `drive.h` (`DriveType` variant). -/
inductive DriveType
  | Belonging | Grief | Curiosity | Sustenance | Shelter | Pride
deriving DecidableEq, Repr

/-- A drive with its intensity, `drive.h` (`struct Drive`). -/
structure Drive where
  type : DriveType
  intensity : ℚ
deriving DecidableEq, Repr

/-- The closed set of action kinds, `action_type.h` (`ActionType` variant). -/
inductive ActionKind
  | Move | Observe | Give | Take | Rest | Build | Plant | Bury | Gesture | Follow
deriving DecidableEq, Repr

/-- Identity tuple of an agent or object, `entity.h` (`struct Entity`). -/
structure Entity where
  id : String
  position : Position
deriving DecidableEq, Repr

/-- Object categories, `object.h` (`ObjectCategory` variant). -/
inductive ObjectCategory
  | Food | Structure | Tool | Burial | Plant | Marker
deriving DecidableEq, Repr

/-- A world object, `object.h` (`struct WorldObject`).  The `created_by`
identity handle of the source is omitted: it participates in a reference
cycle with `NPCIdentity` and is never read by any embedded operation. -/
structure WorldObject where
  entity : Entity
  category : ObjectCategory
deriving DecidableEq, Repr

/-- Snapshot identity of an agent, `npc_identity.h` (`struct NPCIdentity`):
entity plus current action and at most one target. -/
structure NPCIdentity where
  entity : Entity
  current_action : Option ActionKind
  target_entity : Option Entity
  target_object : Option WorldObject
deriving DecidableEq, Repr

/-- One observed action event, `memory_entry.h` (`struct MemoryEntry`). -/
structure MemoryEntry where
  timestamp : ℕ
  actor : NPCIdentity
  action : ActionKind
  target_entity : Option Entity
  target_object : Option WorldObject
deriving DecidableEq, Repr

/-- One step of a remembered sequence, `action_sequence.h` (`struct ActionStep`). -/
structure ActionStep where
  memory : MemoryEntry
  delay_after_previous : ℕ
deriving DecidableEq, Repr

/-- A remembered action sequence, `action_sequence.h` (`struct ActionSequence`). -/
structure ActionSequence where
  id : String
  steps : List ActionStep
deriving DecidableEq, Repr

/-- A long-term episode, `memory_episode.h` (`struct MemoryEpisode`). -/
structure MemoryEpisode where
  start_time : ℕ
  end_time : ℕ
  action_sequence : ActionSequence
  drive_impacts : List Drive
  repetition_count : ℕ
deriving DecidableEq, Repr

/-- A circular region, `relationship_target.h` (`struct LocationPoint`). -/
structure LocationPoint where
  position : Position
  radius : ℚ
deriving DecidableEq, Repr

/-- Target of a relationship, `relationship_target.h` (`RelationshipTarget` variant). -/
inductive RelationshipTarget
  | entity (e : Entity)
  | object (o : WorldObject)
  | location (l : LocationPoint)
deriving DecidableEq, Repr

/-- Per-drive affective history, `relationship.h` (`struct AffectiveTrace`). -/
structure AffectiveTrace where
  drive_type : DriveType
  value : ℚ
deriving DecidableEq, Repr

/-- An asymmetric relationship record, `relationship.h` (`struct Relationship`). -/
structure Relationship where
  target : RelationshipTarget
  familiarity : ℚ
  affective_traces : List AffectiveTrace
  last_interaction : ℕ
  interaction_count : ℕ
deriving DecidableEq, Repr

/-- A full agent record, `npc.h` (`struct NPC`).  `observed_behaviors`
(`WitnessedSequence` handles) is carried opaquely: the embedded code paths
only copy it, never inspect it, so it is modelled by the sequence ids. -/
structure NPC where
  identity : NPCIdentity
  drives : List Drive
  perception : List MemoryEntry
  episodic_memory : List MemoryEpisode
  observed_behaviors : List String
  relationships : List Relationship
deriving DecidableEq, Repr

/-- The simulation clock, `simulation_clock.h` (`struct SimulationClock`). -/
structure SimulationClock where
  current_tick : ℕ
  current_generation : ℕ
  ticks_per_generation : ℕ
deriving DecidableEq, Repr

/-- The world snapshot, `world.h` (`struct World`). -/
structure World where
  clock : SimulationClock
  npcs : List NPC
  objects : List WorldObject
deriving DecidableEq, Repr

/-! ## Drive dynamics (`drive_dynamics.h`) -/

/-- Parameters of natural drive growth, `drive_dynamics.h` (`struct DriveParameters`). -/
structure DriveParameters where
  base_growth_rate : ℚ
  intensity_factor : ℚ
  drive_growth_modifiers : List (DriveType × ℚ)
deriving DecidableEq, Repr

/-- `drive_dynamics_system::getGrowthModifier`: first modifier whose drive
type matches, defaulting to `1.0`. -/
def getGrowthModifier (drive_type : DriveType) (modifiers : List (DriveType × ℚ)) : ℚ :=
  match modifiers.find? (fun m => m.1 = drive_type) with
  | some m => m.2
  | none => 1

/-- `drive_dynamics_system::updateDrive`: natural growth of one drive over
`ticks_elapsed` ticks, clamped above at `100`. -/
def updateDrive (drive : Drive) (params : DriveParameters) (ticks_elapsed : ℕ) : Drive :=
  let growth_modifier := getGrowthModifier drive.type params.drive_growth_modifiers
  let increase_rate := params.base_growth_rate * growth_modifier
  let intensity_multiplier := 1 + (drive.intensity / 100) * params.intensity_factor
  let increase := increase_rate * intensity_multiplier * (ticks_elapsed : ℚ)
  let new_intensity := min 100 (drive.intensity + increase)
  ⟨drive.type, new_intensity⟩

/-- `drive_dynamics_system::updateDrives`: advance every drive of an agent. -/
def updateDrives (npc : NPC) (params : DriveParameters) (ticks_elapsed : ℕ) : NPC :=
  { npc with drives := npc.drives.map (fun d => updateDrive d params ticks_elapsed) }

/-! ## Clock advance (`simulation_runner.h`) -/

/-- `simulation_runner_system::advanceClock`: increment the tick; increment
the generation when the new tick is a multiple of `ticks_per_generation`. -/
def advanceClock (clock : SimulationClock) : SimulationClock :=
  let new_tick := clock.current_tick + 1
  let new_generation :=
    if new_tick % clock.ticks_per_generation = 0 then
      clock.current_generation + 1
    else
      clock.current_generation
  ⟨new_tick, new_generation, clock.ticks_per_generation⟩

/-! ## Perception buffer update (`memory_system.h`) -/

/-- `memory_system::updatePerceptionBuffer`: append the new entries, then
keep only the newest `max_buffer_size` entries. -/
def updatePerceptionBuffer (buffer : List MemoryEntry) (new_entries : List MemoryEntry)
    (max_buffer_size : ℕ) : List MemoryEntry :=
  let updated_entries := buffer ++ new_entries
  if updated_entries.length > max_buffer_size then
    updated_entries.drop (updated_entries.length - max_buffer_size)
  else
    updated_entries

/-! ## Perception sweep (`perception_system.h`) -/

/-- Observer position accessor (`perception_system::getPosition`). -/
def npcPos (n : NPC) : Position := n.identity.entity.position

/-- Observer id accessor (`perception_system::getId`). -/
def npcId (n : NPC) : String := n.identity.entity.id

/-- Square of the Euclidean distance between two positions.  The source's
`calculateDistance` returns `std::sqrt` of this value and every use site
only compares the result against a nonnegative bound, so the embedding
works with the exact square (see `sqrt_le_iff_sq_le`). -/
def calculateDistanceSq (pos1 pos2 : Position) : ℚ :=
  (pos1.x - pos2.x) * (pos1.x - pos2.x) + (pos1.y - pos2.y) * (pos1.y - pos2.y)

/-- Truncation toward zero, the behaviour of the C++ `static_cast<int>`
used by `getCellIndices`. -/
def ratTrunc (q : ℚ) : ℤ := if 0 ≤ q then ⌊q⌋ else ⌈q⌉

/-- `perception_system::getCellIndices`: grid cell of a position for a
given cell size. -/
def getCellIndices (pos : Position) (cell_size : ℚ) : ℤ × ℤ :=
  (ratTrunc (pos.x / cell_size), ratTrunc (pos.y / cell_size))

/-- `perception_system::PerceivableEntity` (`std::variant<NPC, WorldObject>`). -/
inductive PerceivableEntity
  | npc (n : NPC)
  | object (o : WorldObject)
deriving DecidableEq, Repr

/-- `perception_system::PerceptionPair`.  The source stores the Euclidean
`distance`; the embedding stores its square `dist_sq` (same information,
exact in `ℚ`). -/
structure PerceptionPair where
  perceiver : NPC
  perceived : PerceivableEntity
  dist_sq : ℚ
deriving DecidableEq, Repr

/-- The NPC list of one grid cell.  The C++ builds the grid by pushing the
world's NPCs in order into `grid[cellKey]`, so the cell's list is exactly
the world list filtered to that cell index. -/
def cellNpcs (w : World) (cell_size : ℚ) (idx : ℤ × ℤ) : List NPC :=
  w.npcs.filter (fun n => getCellIndices (npcPos n) cell_size = idx)

/-- The object list of one grid cell (see `cellNpcs`). -/
def cellObjects (w : World) (cell_size : ℚ) (idx : ℤ × ℤ) : List WorldObject :=
  w.objects.filter (fun o => getCellIndices o.entity.position cell_size = idx)

/-- The nine cell offsets of the 3×3 scan, in the loop order of the source
(`x_offset` outer, `y_offset` inner, both `-1..1`). -/
def cellOffsets : List (ℤ × ℤ) :=
  [(-1, -1), (-1, 0), (-1, 1), (0, -1), (0, 0), (0, 1), (1, -1), (1, 0), (1, 1)]

/-- The pairs one observer collects from one scanned cell: other NPCs of
the cell (self skipped by id, admitted when within range), then the cell's
objects (admitted when within range) — the two inner loops of
`calculatePerceptibleEntities`. -/
def scanCell (npc : NPC) (w : World) (max_distance : ℚ) (idx : ℤ × ℤ) : List PerceptionPair :=
  (cellNpcs w max_distance idx).filterMap (fun other =>
    if npcId npc = npcId other then none
    else if calculateDistanceSq (npcPos npc) (npcPos other) ≤ max_distance * max_distance then
      some ⟨npc, .npc other, calculateDistanceSq (npcPos npc) (npcPos other)⟩
    else none)
  ++ (cellObjects w max_distance idx).filterMap (fun obj =>
    if calculateDistanceSq (npcPos npc) obj.entity.position ≤ max_distance * max_distance then
      some ⟨npc, .object obj, calculateDistanceSq (npcPos npc) obj.entity.position⟩
    else none)

/-- `perception_system::calculatePerceptibleEntities`: for every NPC, scan
the 3×3 block of grid cells centred on its own cell (cell size = perception
radius). -/
def calculatePerceptibleEntities (w : World) (max_distance : ℚ) : List PerceptionPair :=
  w.npcs.flatMap (fun npc =>
    cellOffsets.flatMap (fun off =>
      scanCell npc w max_distance (getCellIndices (npcPos npc) max_distance + off)))

/-- `memory_system::createObservationMemory`: an `Observe` entry for a
perceived NPC (recording its entity) or object. -/
def createObservationMemory (p : PerceptionPair) (timestamp : ℕ) : MemoryEntry :=
  match p.perceived with
  | .npc observed => ⟨timestamp, p.perceiver.identity, .Observe, some observed.identity.entity, none⟩
  | .object obj => ⟨timestamp, p.perceiver.identity, .Observe, none, some obj⟩

/-- `memory_system::updateNPCPerceptions`. -/
def updateNPCPerceptions (npc : NPC) (new_memories : List MemoryEntry) (max_buffer_size : ℕ) : NPC :=
  { npc with perception := updatePerceptionBuffer npc.perception new_memories max_buffer_size }

/-- `memory_system::processPerceptions`: run the sweep at the current tick,
group the emitted pairs by perceiver id, and fold each group into that
agent's buffer (agents that perceived nothing are kept unchanged). -/
def processPerceptions (w : World) (perception_range : ℚ) (max_buffer_size : ℕ) : World :=
  let current_time := w.clock.current_tick
  let perceptions := calculatePerceptibleEntities w perception_range
  { w with npcs := w.npcs.map (fun npc =>
      let mems := (perceptions.filter (fun p => npcId p.perceiver = npcId npc)).map
        (fun p => createObservationMemory p current_time)
      if mems.isEmpty then npc else updateNPCPerceptions npc mems max_buffer_size) }

/-! ## Relationships and drive impacts (`relationship.h`, `drive_impact.h`) -/

/-- `relationship_system::findRelationship` instantiated at entity targets:
first relationship whose target is exactly this entity. -/
def findRelationshipEntity (relationships : List Relationship) (target : Entity) :
    Option Relationship :=
  relationships.find? (fun rel => match rel.target with
    | .entity e => e = target
    | _ => false)

/-- `relationship_system::findLocationRelationship`: first relationship
whose `LocationPoint` target contains the position
(`LocationPoint::contains` compares squared distance to squared radius). -/
def findLocationRelationship (relationships : List Relationship) (position : Position) :
    Option Relationship :=
  relationships.find? (fun rel => match rel.target with
    | .location l => calculateDistanceSq position l.position ≤ l.radius * l.radius
    | _ => false)

/-- `drive_impact_system::getFamiliarity`: `0` without a relationship. -/
def getFamiliarity (rel : Option Relationship) : ℚ :=
  match rel with
  | some r => r.familiarity
  | none => 0

/-- `drive_impact_system::findActorRelationship`. -/
def findActorRelationship (observer : NPC) (memory : MemoryEntry) : Option Relationship :=
  findRelationshipEntity observer.relationships memory.actor.entity

/-- `drive_impact_system::findLocationRelationship` of an action context:
the location is the target entity's position, or the actor's when the
memory has no target entity. -/
def findContextLocationRelationship (observer : NPC) (memory : MemoryEntry) :
    Option Relationship :=
  findLocationRelationship observer.relationships
    (memory.target_entity.getD memory.actor.entity).position

/-- `drive_impact_system::getActionImpacts`: per-action base deltas.  Only
`Observe`, `Follow` and `Rest` have non-trivial rules; every other action
yields no deltas. -/
def getActionImpacts (observer : NPC) (memory : MemoryEntry) : List Drive :=
  match memory.action with
  | .Observe =>
    let actor_familiarity := getFamiliarity (findActorRelationship observer memory)
    let location_familiarity := getFamiliarity (findContextLocationRelationship observer memory)
    let familiarity_factor := 1 - (actor_familiarity + location_familiarity) / 2
    [⟨.Curiosity, (-1/10) * (1 + familiarity_factor)⟩]
  | .Follow =>
    let actor_familiarity := getFamiliarity (findActorRelationship observer memory)
    [⟨.Belonging, (-1/5) * (1 + actor_familiarity)⟩]
  | .Rest =>
    let location_familiarity := getFamiliarity (findContextLocationRelationship observer memory)
    ⟨.Sustenance, (-3/10) * (1 + location_familiarity)⟩ ::
      (if location_familiarity > 3/10 then [⟨.Shelter, (-1/5) * location_familiarity⟩] else [])
  | _ => []

/-- `drive_impact_system::adjustImpacts`: scale each delta by
`1 + level/100` of the observer's first matching drive. -/
def adjustImpacts (impacts : List Drive) (current_drives : List Drive) : List Drive :=
  impacts.map (fun impact =>
    match current_drives.find? (fun d => d.type = impact.type) with
    | some d => ⟨impact.type, impact.intensity * (1 + d.intensity / 100)⟩
    | none => impact)

/-- `drive_impact_system::evaluateImpact` (the context's `current_time` is
never read by the per-action rules and is dropped). -/
def evaluateImpact (observer : NPC) (memory : MemoryEntry) : List Drive :=
  adjustImpacts (getActionImpacts observer memory) observer.drives

/-- `drive_impact_system::hasEmotionalSignificance`: mean absolute delta at
least the threshold (`0` mean for no deltas). -/
def hasEmotionalSignificance (impacts : List (List Drive)) (significance_threshold : ℚ) : Bool :=
  let all := impacts.flatMap id
  let total_magnitude := (all.map (fun i => |i.intensity|)).sum
  let avg := if 0 < all.length then total_magnitude / (all.length : ℚ) else 0
  significance_threshold ≤ avg

/-! ## Episode formation (`perception_system.h`, episode-formation half) -/

/-- Stable sort of a perception buffer by timestamp.  The source applies
`std::sort` with a strict `<` comparator; for the buffer sizes that occur
(≤ 20 < 16-element insertion-sort threshold is not guaranteed by the
standard, but equal-timestamp order is irrelevant to every property proved
below) the embedding fixes the stable order. -/
def sortByTimestamp (entries : List MemoryEntry) : List MemoryEntry :=
  entries.insertionSort (fun a b => a.timestamp ≤ b.timestamp)

/-- The scan loop of `episode_formation_system::identifyActionSequences`:
`seqs` are the closed groups so far, `cur` the open group. -/
def identifyLoop (max_gap min_len : ℕ) (seqs : List (List MemoryEntry))
    (cur : List MemoryEntry) : List MemoryEntry → List (List MemoryEntry)
  | [] => if min_len ≤ cur.length then seqs ++ [cur] else seqs
  | p :: rest =>
    match cur.getLast? with
    | none => identifyLoop max_gap min_len seqs [p] rest
    | some last =>
      if p.timestamp - last.timestamp ≤ max_gap then
        identifyLoop max_gap min_len seqs (cur ++ [p]) rest
      else
        identifyLoop max_gap min_len
          (if min_len ≤ cur.length then seqs ++ [cur] else seqs) [p] rest

/-- `episode_formation_system::identifyActionSequences`: sort by timestamp,
scan with the gap rule, keep groups of sufficient length. -/
def identifyActionSequences (buffer : List MemoryEntry) (max_gap min_len : ℕ) :
    List (List MemoryEntry) :=
  identifyLoop max_gap min_len [] [] (sortByTimestamp buffer)

/-- Claim-side description of the sequencing (spec §4.4): split the sorted
buffer into maximal runs whose adjacent timestamp gaps are at most
`max_gap`; compared against the source's scan loop in the C7 theorem. -/
def gapRuns (max_gap : ℕ) : List MemoryEntry → List (List MemoryEntry)
  | [] => []
  | [x] => [[x]]
  | x :: y :: rest =>
    match gapRuns max_gap (y :: rest) with
    | [] => [[x]]
    | g :: gs =>
      if y.timestamp - x.timestamp ≤ max_gap then (x :: g) :: gs else [x] :: g :: gs

/-- Proof-side helper: extend the first run of a run list to the left by
`c` (with `[c]` for the empty run list). -/
def consFirst (c : List MemoryEntry) : List (List MemoryEntry) → List (List MemoryEntry)
  | [] => [c]
  | g :: gs => (c ++ g) :: gs

/-- Steps after the first of `createActionSequence`: each delay is the
timestamp difference from the predecessor. -/
def stepsFrom (prev : MemoryEntry) : List MemoryEntry → List ActionStep
  | [] => []
  | e :: rest => ⟨e, e.timestamp - prev.timestamp⟩ :: stepsFrom e rest

/-- `episode_formation_system::createActionSequence` (only ever called on
non-empty groups; the empty case is given the empty step list). -/
def createActionSequence (entries : List MemoryEntry) (sequence_id : String) : ActionSequence :=
  match entries with
  | [] => ⟨sequence_id, []⟩
  | e :: rest => ⟨sequence_id, ⟨e, 0⟩ :: stepsFrom e rest⟩

/-- One step of the impact-combining loop of `evaluateSequenceImpact`:
a new drive kind is appended; a repeated kind replaces the first (unique)
running entry with `(running + new) · 0.6`. -/
def replaceFirstImpact : List Drive → Drive → List Drive
  | [], _ => []
  | c :: rest, impact =>
    if c.type = impact.type then ⟨c.type, (c.intensity + impact.intensity) * (3/5)⟩ :: rest
    else c :: replaceFirstImpact rest impact

/-- See `replaceFirstImpact`. -/
def addImpact (combined : List Drive) (impact : Drive) : List Drive :=
  if combined.any (fun c => c.type = impact.type) then replaceFirstImpact combined impact
  else combined ++ [impact]

/-- `episode_formation_system::evaluateSequenceImpact`: evaluate every
entry's impact, then combine kind-wise in emission order. -/
def evaluateSequenceImpact (npc : NPC) (sequence : List MemoryEntry) : List Drive :=
  ((sequence.map (fun m => evaluateImpact npc m)).flatMap id).foldl addImpact []

/-- `episode_formation_system::createMemoryEpisode`: the episode spans the
group's first and last timestamps (only ever called on non-empty groups). -/
def createMemoryEpisode (sequence : List MemoryEntry) (impacts : List Drive)
    (sequence_id : String) (repetition_count : ℕ) : MemoryEpisode :=
  let start_time := ((sequence.head?).map (fun e => e.timestamp)).getD 0
  let end_time := ((sequence.getLast?).map (fun e => e.timestamp)).getD 0
  ⟨start_time, end_time, createActionSequence sequence sequence_id, impacts, repetition_count⟩

/-- `episode_formation_system::findSimilarEpisode`, the
`perception_system.h` version: first episode with the same step count;
otherwise the *first episode of the memory* when one exists ("workaround
for the fact that we can't return a null reference"); otherwise a dummy
episode with `repetition_count = 0`. -/
def findSimilarEpisode (episodes : List MemoryEpisode) (sequence : ActionSequence) :
    MemoryEpisode :=
  match episodes.find? (fun e => e.action_sequence.steps.length = sequence.steps.length) with
  | some e => e
  | none =>
    match episodes with
    | e0 :: _ => e0
    | [] => ⟨0, 0, ⟨"__dummy__", []⟩, [], 0⟩

/-- `episode_formation_system::formEpisodicMemories`
(`perception_system.h` version): for each candidate group that passes the
significance test, reinforce the "similar" episode (detected by
`repetition_count > 0`) or create a fresh one; append all new episodes. -/
def formEpisodicMemories (npc : NPC) (current_time : ℕ) (significance_threshold : ℚ)
    (max_gap min_len : ℕ) : NPC :=
  let sequences := identifyActionSequences npc.perception max_gap min_len
  if sequences.isEmpty then npc
  else
    let new_episodes := sequences.filterMap (fun sequence =>
      let impacts := evaluateSequenceImpact npc sequence
      if hasEmotionalSignificance [impacts] significance_threshold then
        let sequence_id := "seq_" ++ toString current_time ++ "_" ++ toString sequence.length
        let action_sequence := createActionSequence sequence sequence_id
        let similar_episode := findSimilarEpisode npc.episodic_memory action_sequence
        if similar_episode.repetition_count > 0 then
          some ⟨similar_episode.start_time, similar_episode.end_time,
                similar_episode.action_sequence, similar_episode.drive_impacts,
                similar_episode.repetition_count + 1⟩
        else
          some (createMemoryEpisode sequence impacts sequence_id 1)
      else none)
    if new_episodes.isEmpty then npc
    else { npc with episodic_memory := npc.episodic_memory ++ new_episodes }

/-! ## Action selection (`action_selection.h`) -/

/-- A candidate action, `action_selection.h` (`struct ActionOption`).  The
three C++ constructors enforce at most one target. -/
structure ActionOption where
  action : ActionKind
  target_entity : Option Entity
  target_object : Option WorldObject
  expected_impacts : List Drive
  from_memory : Bool
deriving DecidableEq, Repr

/-- Selection criteria, `action_selection.h` (`struct ActionSelectionCriteria`). -/
structure ActionSelectionCriteria where
  current_drives : List Drive
  familiarity_preference : ℚ
  social_preference : ℚ
  randomness : ℚ
deriving DecidableEq, Repr

/-- `action_selection_system::calculateDriveScore`: drives below `0.1`
intensity in absolute value are skipped; each matching impact contributes
`−impact · drive`. -/
def calculateDriveScore (option : ActionOption) (current_drives : List Drive) : ℚ :=
  (current_drives.map (fun drive =>
    if |drive.intensity| < 1/10 then 0
    else ((option.expected_impacts.filter (fun impact => impact.type = drive.type)).map
      (fun impact => -impact.intensity * drive.intensity)).sum)).sum

/-- `action_selection_system::calculatePreferenceScore`. -/
def calculatePreferenceScore (option : ActionOption) (criteria : ActionSelectionCriteria) : ℚ :=
  (if option.from_memory then criteria.familiarity_preference * 10 else 0) +
  (if option.target_entity.isSome then criteria.social_preference * 5 else 0)

/-- The combined score computed inside `selectAction`. -/
def totalScore (option : ActionOption) (criteria : ActionSelectionCriteria) : ℚ :=
  calculateDriveScore option criteria.current_drives + calculatePreferenceScore option criteria

/-- Descending order on `(index, score)` pairs, the comparator
`a.second > b.second` of `selectAction` read as "stays no later than". -/
def scoreGe (a b : ℕ × ℚ) : Prop := b.2 ≤ a.2

instance : DecidableRel scoreGe := fun a b => inferInstanceAs (Decidable (b.2 ≤ a.2))

instance : IsTotal (ℕ × ℚ) scoreGe := ⟨fun a b => le_total b.2 a.2⟩

instance : IsTrans (ℕ × ℚ) scoreGe := ⟨fun _ _ _ h h' => le_trans h' h⟩

/-- `action_selection_system::selectAction`.  The source scores the options
by index, sorts the `(index, score)` pairs by descending score with
`std::sort` (embedded as the stable `insertionSort`; the spec §9 fixes the
stable tie order), and, when `randomness > 0` and at least two options
exist, draws a uniform index below `top_n` from a freshly
`std::random_device`-seeded `mt19937`.  That draw is no function of the
inputs; it is modelled by the explicit `entropy` argument (reduced modulo
`top_n` exactly as a uniform draw ranges over `0..top_n-1`). -/
def selectActionE (options : List ActionOption) (criteria : ActionSelectionCriteria)
    (entropy : ℕ) : Option ActionOption :=
  if options.isEmpty then none
  else
    let scored_options := (options.map (fun o => totalScore o criteria)).enum
    let sorted := scored_options.insertionSort scoreGe
    if 0 < criteria.randomness ∧ 1 < sorted.length then
      let top_n := min (1 + ⌊criteria.randomness * 10⌋).toNat sorted.length
      (sorted[entropy % top_n]?).bind (fun p => options[p.1]?)
    else
      (sorted.head?).bind (fun p => options[p.1]?)

/-- `action_selection_system::generatePrimitiveActions`: social options for
every other NPC within 10 units, object options within 5 units, then the
three unconditional untargeted options `Move`, `Build`, `Gesture`. -/
def generatePrimitiveActions (npc : NPC) (world : World) : List ActionOption :=
  let npc_position := npcPos npc
  let npc_options := world.npcs.flatMap (fun other =>
    if npcId other = npcId npc then []
    else if calculateDistanceSq npc_position (npcPos other) ≤ 10 * 10 then
      [⟨.Follow, some other.identity.entity, none, [⟨.Belonging, -3/10⟩], false⟩,
       ⟨.Observe, some other.identity.entity, none, [⟨.Curiosity, -1/5⟩], false⟩]
    else [])
  let object_options := world.objects.flatMap (fun obj =>
    if calculateDistanceSq npc_position obj.entity.position ≤ 5 * 5 then
      ⟨.Observe, none, some obj, [⟨.Curiosity, -1/5⟩], false⟩ ::
      (match obj.category with
       | .Food => [⟨.Take, none, some obj, [⟨.Sustenance, -1/2⟩], false⟩]
       | .Structure => [⟨.Rest, none, some obj, [⟨.Shelter, -2/5⟩, ⟨.Sustenance, -3/10⟩], false⟩]
       | _ => [])
    else [])
  npc_options ++ object_options ++
    [⟨.Move, none, none, [⟨.Curiosity, -1/5⟩], false⟩,
     ⟨.Build, none, none, [⟨.Shelter, -3/10⟩, ⟨.Pride, -1/5⟩], false⟩,
     ⟨.Gesture, none, none, [⟨.Pride, -3/10⟩], false⟩]

/-- `action_selection_system::generateMemoryBasedActions`: replay the first
step of every episode seen at least twice whose targets still exist. -/
def generateMemoryBasedActions (npc : NPC) (world : World) : List ActionOption :=
  npc.episodic_memory.filterMap (fun episode =>
    if episode.repetition_count < 2 then none
    else match episode.action_sequence.steps with
    | [] => none
    | first_step :: _ =>
      let memory := first_step.memory
      let entity_ok := match memory.target_entity with
        | some t => world.npcs.any (fun n => npcId n = t.id)
        | none => true
      let object_ok := match memory.target_object with
        | some o => world.objects.any (fun ob => ob.entity.id = o.entity.id)
        | none => true
      if entity_ok && object_ok then
        match memory.target_entity, memory.target_object with
        | some t, _ => some ⟨memory.action, some t, none, episode.drive_impacts, true⟩
        | none, some o => some ⟨memory.action, none, some o, episode.drive_impacts, true⟩
        | none, none => some ⟨memory.action, none, none, episode.drive_impacts, true⟩
      else none)

/-- `action_selection_system::updateIdentityWithAction`: same entity, the
chosen action, and its target (entity branch first, as in the source). -/
def updateIdentityWithAction (identity : NPCIdentity) (selected : ActionOption) : NPCIdentity :=
  match selected.target_entity, selected.target_object with
  | some t, _ => ⟨identity.entity, some selected.action, some t, none⟩
  | none, some o => ⟨identity.entity, some selected.action, none, some o⟩
  | none, none => ⟨identity.entity, some selected.action, none, none⟩

/-- `action_selection_system::selectNextAction` (with the explicit entropy
of `selectActionE`). -/
def selectNextActionE (npc : NPC) (world : World) (criteria : ActionSelectionCriteria)
    (entropy : ℕ) : NPC :=
  let all_options := generatePrimitiveActions npc world ++ generateMemoryBasedActions npc world
  match selectActionE all_options criteria entropy with
  | none => npc
  | some selected => { npc with identity := updateIdentityWithAction npc.identity selected }

/-! ## Action execution (`action_execution.h`)

The movement arithmetic takes square roots, so it is embedded over `ℝ`
(positions as real pairs); the branch tests and the concrete scenarios of
the claims evaluate exactly. -/

/-- The three values `ActionExecutor::operator()(Move)` draws from its
static `mt19937` for an untargeted move: a direction `(dx, dy)` (each
uniform in `[-1, 1]`) and a speed (uniform in `[5, 20]`).  The generator is
seeded from `std::random_device` at program start, so the draws are no
function of world, parameters or any seed; they are explicit inputs here. -/
structure MoveEntropy where
  dx : ℝ
  dy : ℝ
  speed : ℝ

/-- The entity-target branch of `ActionExecutor::operator()(Move)`: stay
put within distance 10, otherwise step `min 30 distance` toward the
target. -/
noncomputable def moveTowardEntityTarget (position target_pos : ℝ × ℝ) : ℝ × ℝ :=
  let dx := target_pos.1 - position.1
  let dy := target_pos.2 - position.2
  let distance := Real.sqrt (dx * dx + dy * dy)
  if distance < 10 then position
  else
    let move_speed : ℝ := 30
    let normalized_dx := dx / distance
    let normalized_dy := dy / distance
    let actual_move := min move_speed distance
    (position.1 + normalized_dx * actual_move, position.2 + normalized_dy * actual_move)

/-- The no-target branch of `ActionExecutor::operator()(Move)`: normalise
the drawn direction (when non-zero), step by the drawn speed, clamp to the
`1000 × 1000` world. -/
noncomputable def moveRandomly (position : ℝ × ℝ) (ent : MoveEntropy) : ℝ × ℝ :=
  let length := Real.sqrt (ent.dx * ent.dx + ent.dy * ent.dy)
  let dx := if 0 < length then ent.dx / length else ent.dx
  let dy := if 0 < length then ent.dy / length else ent.dy
  let world_size : ℝ := 1000
  (max 0 (min world_size (position.1 + dx * ent.speed)),
   max 0 (min world_size (position.2 + dy * ent.speed)))

/-- `ActionExecutor::updateNPCPosition`: rebuild entity, identity (keeping
action and targets, entity branch first) and agent around a new position. -/
def updateNPCPosition (npc : NPC) (new_position : Position) : NPC :=
  let old := npc.identity
  let new_entity : Entity := ⟨old.entity.id, new_position⟩
  let new_identity : NPCIdentity :=
    match old.current_action, old.target_entity, old.target_object with
    | some a, some t, _ => ⟨new_entity, some a, some t, none⟩
    | some a, none, some o => ⟨new_entity, some a, none, some o⟩
    | some a, none, none => ⟨new_entity, some a, none, none⟩
    | none, _, _ => ⟨new_entity, none, none, none⟩
  { npc with identity := new_identity }

/-! ## Theorems -/

/-- Generation never decreases in one clock step. -/
theorem advanceClock_generation_le (c : SimulationClock) :
    c.current_generation ≤ (advanceClock c).current_generation := by
  simp only [advanceClock]
  split <;> omega

/-- Iterating the clock adds the iteration count to the tick. -/
theorem advanceClock_iterate_tick (c : SimulationClock) (n : ℕ) :
    (advanceClock^[n] c).current_tick = c.current_tick + n := by
  induction n generalizing c with
  | zero => simp
  | succ k ih =>
    rw [Function.iterate_succ_apply, ih]
    simp only [advanceClock]
    omega

/-- Generation never decreases over any run of clock steps. -/
theorem advanceClock_iterate_generation_le (c : SimulationClock) (n : ℕ) :
    c.current_generation ≤ (advanceClock^[n] c).current_generation := by
  induction n generalizing c with
  | zero => simp
  | succ k ih =>
    rw [Function.iterate_succ_apply]
    exact le_trans (advanceClock_generation_le c) (ih (advanceClock c))

/-- C4: `updateDrive` keeps the drive kind and sets the intensity to
`min(100, intensity + base_growth_rate · growth_modifier(kind) ·
(1 + intensity/100 · intensity_factor) · ticks_elapsed)`, where the growth
modifier of a kind absent from the modifier list is `1`; with
`base_growth_rate = 0.2`, `intensity_factor = 0.5`, initial
`Drive(Sustenance, 50)` and `10` ticks elapsed the new intensity is
`52.5`. -/
theorem updateDrive_growth_formula :
    (∀ (d : Drive) (p : DriveParameters) (n : ℕ),
      updateDrive d p n = ⟨d.type,
        min 100 (d.intensity + p.base_growth_rate
          * getGrowthModifier d.type p.drive_growth_modifiers
          * (1 + d.intensity / 100 * p.intensity_factor) * (n : ℚ))⟩)
    ∧ (∀ (t : DriveType) (mods : List (DriveType × ℚ)),
        (∀ m ∈ mods, m.1 ≠ t) → getGrowthModifier t mods = 1)
    ∧ updateDrive ⟨.Sustenance, 50⟩ ⟨1/5, 1/2, []⟩ 10 = ⟨.Sustenance, 105/2⟩ := by
  refine ⟨fun d p n => rfl, fun t mods h => ?_, ?_⟩
  · have hnone : mods.find? (fun m => m.1 = t) = none :=
      List.find?_eq_none.mpr (by intro x hx; simpa using h x hx)
    simp [getGrowthModifier, hnone]
  · simp only [updateDrive, getGrowthModifier, List.find?_nil]
    norm_num

/-- Witness for `updateDrive_growth_formula`: a kind absent from a concrete
modifier list gets modifier `1`. -/
theorem updateDrive_growth_formula_witness :
    getGrowthModifier .Sustenance [(.Curiosity, 2)] = 1 :=
  updateDrive_growth_formula.2.1 .Sustenance [(.Curiosity, 2)] (by decide)

/-- C9: `advanceClock` increments the tick by exactly one and keeps
`ticks_per_generation`; for positive `ticks_per_generation` the generation
is incremented exactly when the new tick is a (positive) multiple of
`ticks_per_generation`; over any run of steps the generation is
non-decreasing and the tick advances by the number of steps. -/
theorem advanceClock_spec :
    (∀ c : SimulationClock,
      (advanceClock c).current_tick = c.current_tick + 1
      ∧ (advanceClock c).ticks_per_generation = c.ticks_per_generation)
    ∧ (∀ c : SimulationClock, 0 < c.ticks_per_generation →
        ((advanceClock c).current_generation =
          if c.ticks_per_generation ∣ (c.current_tick + 1)
          then c.current_generation + 1 else c.current_generation)
        ∧ ((advanceClock c).current_generation = c.current_generation + 1 ↔
            c.ticks_per_generation ∣ (c.current_tick + 1) ∧ 0 < c.current_tick + 1))
    ∧ (∀ (c : SimulationClock) (n : ℕ),
        c.current_generation ≤ (advanceClock^[n] c).current_generation
        ∧ (advanceClock^[n] c).current_tick = c.current_tick + n) := by
  refine ⟨fun c => ⟨rfl, rfl⟩, fun c hpos => ?_, fun c n =>
    ⟨advanceClock_iterate_generation_le c n, advanceClock_iterate_tick c n⟩⟩
  have hdvd : (c.current_tick + 1) % c.ticks_per_generation = 0 ↔
      c.ticks_per_generation ∣ (c.current_tick + 1) := (Nat.dvd_iff_mod_eq_zero).symm
  constructor
  · simp only [advanceClock]
    split <;> rename_i h
    · rw [if_pos (hdvd.mp h)]
    · rw [if_neg (fun hd => h (hdvd.mpr hd))]
  · simp only [advanceClock]
    split <;> rename_i h
    · simp [hdvd.mp h]
    · have : ¬ c.ticks_per_generation ∣ (c.current_tick + 1) := fun hd => h (hdvd.mpr hd)
      simp [this]

/-- Witness for `advanceClock_spec`: a clock at tick 4 with 5 ticks per
generation advances into a new generation. -/
theorem advanceClock_spec_witness :
    (advanceClock ⟨4, 7, 5⟩).current_generation = 8 := by
  have h := (advanceClock_spec.2.1 ⟨4, 7, 5⟩ (by decide)).1
  simpa using h

/-- C8: the updated perception buffer is a suffix of the concatenation
"old entries then new entries" of length `min (old + new) max_buffer_size`
(so exactly the newest entries survive, in order, and the buffer never
exceeds the bound); consequently a perception pass preserves the buffer
bound for every agent of the world. -/
theorem updatePerceptionBuffer_spec :
    (∀ (buffer new_entries : List MemoryEntry) (m : ℕ),
      updatePerceptionBuffer buffer new_entries m <:+ buffer ++ new_entries
      ∧ (updatePerceptionBuffer buffer new_entries m).length =
          min (buffer.length + new_entries.length) m
      ∧ (buffer.length + new_entries.length ≤ m →
          updatePerceptionBuffer buffer new_entries m = buffer ++ new_entries))
    ∧ (∀ (w : World) (R : ℚ) (m : ℕ),
        (∀ npc ∈ w.npcs, npc.perception.length ≤ m) →
        ∀ npc' ∈ (processPerceptions w R m).npcs, npc'.perception.length ≤ m) := by
  constructor
  · intro buffer new_entries m
    refine ⟨?_, ?_, ?_⟩
    · simp only [updatePerceptionBuffer]
      split
      · exact (buffer ++ new_entries).drop_suffix _
      · exact List.suffix_refl _
    · simp only [updatePerceptionBuffer]
      split <;> rename_i h <;> simp only [List.length_drop, List.length_append] at * <;> omega
    · intro hle
      simp only [updatePerceptionBuffer]
      rw [if_neg (by simp only [List.length_append]; omega)]
  · intro w R m hin npc' hmem
    simp only [processPerceptions, List.mem_map] at hmem
    obtain ⟨npc, hnpc, rfl⟩ := hmem
    split
    · exact hin npc hnpc
    · simp only [updateNPCPerceptions, updatePerceptionBuffer]
      split <;> rename_i h
      · simp only [List.length_drop, List.length_append] at *
        omega
      · simp only [List.length_append] at h ⊢
        have := hin npc hnpc
        omega

/-- Witness for `updatePerceptionBuffer_spec`: the bound is preserved on a
concrete one-agent world. -/
theorem updatePerceptionBuffer_spec_witness :
    ((processPerceptions ⟨⟨0, 0, 10⟩,
        [⟨⟨⟨"A", ⟨0, 0⟩⟩, none, none, none⟩, [], [], [], [], []⟩], []⟩ 10 20).npcs).all
      (fun n => n.perception.length ≤ 20) = true := by
  have h := updatePerceptionBuffer_spec.2
    ⟨⟨0, 0, 10⟩, [⟨⟨⟨"A", ⟨0, 0⟩⟩, none, none, none⟩, [], [], [], [], []⟩], []⟩ 10 20
    (by intro npc hnpc; simp at hnpc; simp [hnpc])
  simpa [List.all_eq_true] using h

/-- Splitting a non-empty list into gap runs yields at least one run. -/
theorem gapRuns_ne_nil (max_gap : ℕ) (x : MemoryEntry) (l : List MemoryEntry) :
    gapRuns max_gap (x :: l) ≠ [] := by
  cases l with
  | nil => simp [gapRuns]
  | cons y rest =>
    simp only [gapRuns]
    cases gapRuns max_gap (y :: rest) with
    | nil => simp
    | cons g gs =>
      by_cases h : y.timestamp - x.timestamp ≤ max_gap <;> simp [h]

/-- The scan loop with a non-empty open group `c ++ [a]` closes exactly the
runs of `a :: rest`, the first run extended to the left by `c`. -/
theorem identifyLoop_run (max_gap min_len : ℕ) :
    ∀ (rest c : List MemoryEntry) (a : MemoryEntry) (seqs : List (List MemoryEntry)),
      identifyLoop max_gap min_len seqs (c ++ [a]) rest =
        seqs ++ ((consFirst c (gapRuns max_gap (a :: rest))).filter
          (fun s => min_len ≤ s.length)) := by
  intro rest
  induction rest with
  | nil =>
    intro c a seqs
    simp only [identifyLoop, gapRuns, consFirst]
    by_cases h : min_len ≤ (c ++ [a]).length
    · have h' : min_len ≤ c.length + 1 := by simpa using h
      rw [if_pos h]
      simp [List.filter_cons, h']
    · have h' : ¬min_len ≤ c.length + 1 := by simpa using h
      rw [if_neg h]
      simp [List.filter_cons, h']
  | cons p rest ih =>
    intro c a seqs
    simp only [identifyLoop, List.getLast?_concat]
    split <;> rename_i hgap
    · rw [show c ++ [a] ++ [p] = (c ++ [a]) ++ [p] from rfl, ih (c ++ [a]) p seqs]
      cases hrest : gapRuns max_gap (p :: rest) with
      | nil => exact absurd hrest (gapRuns_ne_nil _ _ _)
      | cons g gs =>
        simp only [gapRuns, hrest, if_pos hgap, consFirst]
        rw [List.append_cons c a g]
    · rw [show ([p] : List MemoryEntry) = [] ++ [p] from rfl, ih [] p _]
      cases hrest : gapRuns max_gap (p :: rest) with
      | nil => exact absurd hrest (gapRuns_ne_nil _ _ _)
      | cons g gs =>
        simp only [gapRuns, hrest, if_neg hgap, consFirst, List.nil_append, List.filter_cons]
        by_cases h : min_len ≤ (c ++ [a]).length
        · have h' : min_len ≤ c.length + 1 := by simpa using h
          rw [if_pos h]
          simp [h', List.append_assoc]
        · have h' : ¬min_len ≤ c.length + 1 := by simpa using h
          rw [if_neg h]
          simp [h']

/-- C7: for `min_sequence_length ≥ 1`, the candidate groups of
`identifyActionSequences` are exactly the maximal adjacent-gap runs of the
timestamp-sorted buffer, kept iff their length reaches
`min_sequence_length`; on the buffer with timestamps `100, 103, 115`, gap
`5` and minimum length `2`, exactly the group of the first two entries
results. -/
theorem identifyActionSequences_spec :
    (∀ (buffer : List MemoryEntry) (max_gap min_len : ℕ), 1 ≤ min_len →
      identifyActionSequences buffer max_gap min_len =
        (gapRuns max_gap (sortByTimestamp buffer)).filter (fun g => min_len ≤ g.length))
    ∧ (∀ (actor : NPCIdentity),
      identifyActionSequences
        [⟨100, actor, .Observe, none, none⟩,
         ⟨103, actor, .Observe, none, none⟩,
         ⟨115, actor, .Observe, none, none⟩] 5 2 =
        [[⟨100, actor, .Observe, none, none⟩, ⟨103, actor, .Observe, none, none⟩]]) := by
  have main : ∀ (buffer : List MemoryEntry) (max_gap min_len : ℕ), 1 ≤ min_len →
      identifyActionSequences buffer max_gap min_len =
        (gapRuns max_gap (sortByTimestamp buffer)).filter (fun g => min_len ≤ g.length) := by
    intro buffer max_gap min_len hmin
    unfold identifyActionSequences
    cases hs : sortByTimestamp buffer with
    | nil =>
      simp only [identifyLoop, gapRuns, List.length_nil]
      rw [if_neg (by omega)]
      simp
    | cons x rest =>
      cases hg : gapRuns max_gap (x :: rest) with
      | nil => exact absurd hg (gapRuns_ne_nil _ _ _)
      | cons g gs =>
        have h0 := identifyLoop_run max_gap min_len rest [] x []
        simp only [List.nil_append, hg, consFirst] at h0
        simpa [identifyLoop] using h0
  refine ⟨main, fun actor => ?_⟩
  rw [main _ 5 2 (by omega)]
  have hsort : sortByTimestamp
      [⟨100, actor, .Observe, none, none⟩,
       ⟨103, actor, .Observe, none, none⟩,
       ⟨115, actor, .Observe, none, none⟩] =
      [⟨100, actor, .Observe, none, none⟩,
       ⟨103, actor, .Observe, none, none⟩,
       ⟨115, actor, .Observe, none, none⟩] := by
    simp [sortByTimestamp, List.insertionSort, List.orderedInsert]
  rw [hsort]
  simp [gapRuns]

/-- Witness for `identifyActionSequences_spec`: the refinement applied to
the empty buffer. -/
theorem identifyActionSequences_spec_witness :
    identifyActionSequences [] 5 2 = [] := by
  have h := identifyActionSequences_spec.1 [] 5 2 (by omega)
  simpa [sortByTimestamp, gapRuns] using h

/-- Every entry of the sorted score list indexes a real option carrying
that score. -/
theorem sortedScores_entry (options : List ActionOption) (c : ActionSelectionCriteria)
    {p : ℕ × ℚ}
    (hp : p ∈ ((options.map (fun o => totalScore o c)).enum.insertionSort scoreGe)) :
    ∃ o, options[p.1]? = some o ∧ o ∈ options ∧ totalScore o c = p.2 := by
  have hmem : p ∈ (options.map (fun o => totalScore o c)).enum :=
    (List.perm_insertionSort scoreGe _).mem_iff.mp hp
  rw [List.mem_enum_iff_getElem?, List.getElem?_map] at hmem
  cases ho : options[p.1]? with
  | none => rw [ho] at hmem; simp at hmem
  | some o =>
    rw [ho] at hmem
    simp only [Option.map_some', Option.some.injEq] at hmem
    exact ⟨o, rfl, List.mem_iff_getElem?.mpr ⟨p.1, ho⟩, hmem⟩

/-- The sorted score list has one entry per option. -/
theorem sortedScores_length (options : List ActionOption) (c : ActionSelectionCriteria) :
    ((options.map (fun o => totalScore o c)).enum.insertionSort scoreGe).length =
      options.length := by
  rw [(List.perm_insertionSort scoreGe _).length_eq, List.enum_length, List.length_map]

/-- `selectAction` on a non-empty option list always selects one of the
options, whatever the entropy. -/
theorem selectActionE_mem (options : List ActionOption) (c : ActionSelectionCriteria)
    (e : ℕ) (h : options ≠ []) :
    ∃ o, selectActionE options c e = some o ∧ o ∈ options := by
  simp only [selectActionE]
  rw [if_neg (by simpa [List.isEmpty_iff] using h)]
  have hlen := sortedScores_length options c
  have hpos : 0 < options.length := List.length_pos.mpr h
  by_cases hr : 0 < c.randomness ∧
      1 < ((options.map (fun o => totalScore o c)).enum.insertionSort scoreGe).length
  · rw [if_pos hr]
    have htpos : 0 < min (1 + ⌊c.randomness * 10⌋).toNat
        ((options.map (fun o => totalScore o c)).enum.insertionSort scoreGe).length := by
      have h0 : (0:ℤ) ≤ ⌊c.randomness * 10⌋ :=
        Int.floor_nonneg.mpr (by nlinarith [hr.1])
      have h1 : 0 < (1 + ⌊c.randomness * 10⌋).toNat := by omega
      omega
    have hidx : e % min (1 + ⌊c.randomness * 10⌋).toNat
        ((options.map (fun o => totalScore o c)).enum.insertionSort scoreGe).length <
        ((options.map (fun o => totalScore o c)).enum.insertionSort scoreGe).length :=
      lt_of_lt_of_le (Nat.mod_lt _ htpos) (min_le_right _ _)
    rw [List.getElem?_eq_getElem hidx]
    obtain ⟨o, ho, homem, _⟩ := sortedScores_entry options c (List.getElem_mem hidx)
    exact ⟨o, by rw [Option.some_bind]; exact ho, homem⟩
  · rw [if_neg hr]
    have hne : ((options.map (fun o => totalScore o c)).enum.insertionSort scoreGe) ≠ [] := by
      rw [← List.length_pos]
      omega
    have hhead := List.head?_eq_head hne
    rw [hhead]
    obtain ⟨o, ho, homem, _⟩ := sortedScores_entry options c
      (List.mem_of_mem_head? (l := (options.map (fun o => totalScore o c)).enum.insertionSort
        scoreGe) (by rw [hhead]; rfl))
    exact ⟨o, by rw [Option.some_bind]; exact ho, homem⟩

/-- With `randomness = 0`, `selectAction` returns a maximal-score option. -/
theorem selectActionE_max (options : List ActionOption) (c : ActionSelectionCriteria)
    (e : ℕ) (h : options ≠ []) (hr : c.randomness = 0) :
    ∃ o, selectActionE options c e = some o ∧ o ∈ options
      ∧ ∀ o' ∈ options, totalScore o' c ≤ totalScore o c := by
  simp only [selectActionE]
  rw [if_neg (by simpa [List.isEmpty_iff] using h)]
  rw [if_neg (by simp [hr])]
  have hlen := sortedScores_length options c
  have hpos : 0 < options.length := List.length_pos.mpr h
  have hne : ((options.map (fun o => totalScore o c)).enum.insertionSort scoreGe) ≠ [] := by
    rw [← List.length_pos]
    omega
  have hhead := List.head?_eq_head hne
  rw [hhead]
  set sorted := (options.map (fun o => totalScore o c)).enum.insertionSort scoreGe with hs
  obtain ⟨o, ho, homem, hscore⟩ := sortedScores_entry options c
    (List.mem_of_mem_head? (l := sorted) (by rw [hhead]; rfl))
  refine ⟨o, by rw [Option.some_bind]; exact ho, homem, ?_⟩
  intro o' ho'
  obtain ⟨i, hi⟩ := List.mem_iff_getElem?.mp ho'
  have hpair : (i, totalScore o' c) ∈ (options.map (fun o => totalScore o c)).enum := by
    rw [List.mem_enum_iff_getElem?, List.getElem?_map, hi]
    rfl
  have hpairs : (i, totalScore o' c) ∈ sorted :=
    (List.perm_insertionSort scoreGe _).mem_iff.mpr hpair
  have hsorted : List.Sorted scoreGe sorted := List.sorted_insertionSort scoreGe _
  cases hcons : sorted with
  | nil => exact absurd hcons hne
  | cons q t =>
    have hq : sorted.head hne = q := by simp [hcons]
    rw [hcons] at hpairs hsorted
    rw [hq] at hscore
    cases hpairs with
    | head => exact le_of_eq hscore.symm
    | tail _ htail =>
      have := List.rel_of_sorted_cons hsorted _ htail
      rw [hscore]
      exact this

/-- The identity updated with a selected option always carries the chosen
action. -/
theorem updateIdentityWithAction_action (identity : NPCIdentity) (o : ActionOption) :
    (updateIdentityWithAction identity o).current_action = some o.action := by
  simp only [updateIdentityWithAction]
  rcases o.target_entity with _ | t <;> rcases o.target_object with _ | ob <;> rfl

/-- C6: with a non-empty option list and `randomness = 0`, action selection
returns an option of maximal total score (drive score plus preference
score); in scenario S6 — drives `Sustenance 90`, `Curiosity 10`, a
`Take(Food)` option with impact `Sustenance −0.5` and an entity-targeted
`Observe` option with impact `Curiosity −0.2` — the `Take` option is
selected whenever `social_preference ≤ 8.6`. -/
theorem selectAction_max_spec :
    (∀ (options : List ActionOption) (c : ActionSelectionCriteria) (e : ℕ),
      options ≠ [] → c.randomness = 0 →
      ∃ o, selectActionE options c e = some o ∧ o ∈ options
        ∧ ∀ o' ∈ options, totalScore o' c ≤ totalScore o c)
    ∧ (∀ (f s : ℚ) (e : ℕ), s ≤ 43/5 →
      selectActionE
        [⟨.Take, none, some ⟨⟨"food1", ⟨0, 0⟩⟩, .Food⟩, [⟨.Sustenance, -1/2⟩], false⟩,
         ⟨.Observe, some ⟨"npcB", ⟨3, 0⟩⟩, none, [⟨.Curiosity, -1/5⟩], false⟩]
        ⟨[⟨.Sustenance, 90⟩, ⟨.Curiosity, 10⟩], f, s, 0⟩ e =
        some ⟨.Take, none, some ⟨⟨"food1", ⟨0, 0⟩⟩, .Food⟩, [⟨.Sustenance, -1/2⟩], false⟩) := by
  refine ⟨fun options c e h hr => selectActionE_max options c e h hr, fun f s e hs => ?_⟩
  have h1 : totalScore
      ⟨.Take, none, some ⟨⟨"food1", ⟨0, 0⟩⟩, .Food⟩, [⟨.Sustenance, -1/2⟩], false⟩
      ⟨[⟨.Sustenance, 90⟩, ⟨.Curiosity, 10⟩], f, s, 0⟩ = 45 := by
    simp [totalScore, calculateDriveScore, calculatePreferenceScore, abs_lt]
    norm_num
  have h2 : totalScore
      ⟨.Observe, some ⟨"npcB", ⟨3, 0⟩⟩, none, [⟨.Curiosity, -1/5⟩], false⟩
      ⟨[⟨.Sustenance, 90⟩, ⟨.Curiosity, 10⟩], f, s, 0⟩ = 2 + s * 5 := by
    simp [totalScore, calculateDriveScore, calculatePreferenceScore, abs_lt]
    norm_num
  simp only [selectActionE]
  rw [if_neg (by simp), if_neg (by simp)]
  simp only [List.map_cons, List.map_nil, h1, h2, List.enum]
  have hcond : scoreGe ((0 : ℕ), (45 : ℚ)) (1, 2 + s * 5) := by
    simp only [scoreGe]
    linarith
  simp only [List.insertionSort, List.orderedInsert, if_pos hcond]
  rfl

/-- Witness for `selectAction_max_spec`: the S6 scenario at
`social_preference = 0`. -/
theorem selectAction_max_spec_witness :
    selectActionE
      [⟨.Take, none, some ⟨⟨"food1", ⟨0, 0⟩⟩, .Food⟩, [⟨.Sustenance, -1/2⟩], false⟩,
       ⟨.Observe, some ⟨"npcB", ⟨3, 0⟩⟩, none, [⟨.Curiosity, -1/5⟩], false⟩]
      ⟨[⟨.Sustenance, 90⟩, ⟨.Curiosity, 10⟩], 0, 0, 0⟩ 0 =
      some ⟨.Take, none, some ⟨⟨"food1", ⟨0, 0⟩⟩, .Food⟩, [⟨.Sustenance, -1/2⟩], false⟩ :=
  selectAction_max_spec.2 0 0 0 (by norm_num)

/-- C10: primitive option generation always emits the untargeted `Move`
option (together with `Build` and `Gesture`), so the option list of action
selection is never empty, selection always returns an option, and after
`selectNextAction` the agent's identity always carries a current action. -/
theorem options_never_empty_spec :
    ∀ (npc : NPC) (world : World) (c : ActionSelectionCriteria) (e : ℕ),
      (⟨.Move, none, none, [⟨.Curiosity, -1/5⟩], false⟩ : ActionOption) ∈
          generatePrimitiveActions npc world
      ∧ generatePrimitiveActions npc world ≠ []
      ∧ (selectActionE (generatePrimitiveActions npc world ++
          generateMemoryBasedActions npc world) c e).isSome = true
      ∧ (selectNextActionE npc world c e).identity.current_action.isSome = true := by
  intro npc world c e
  have hmem : (⟨.Move, none, none, [⟨.Curiosity, -1/5⟩], false⟩ : ActionOption) ∈
      generatePrimitiveActions npc world := by
    simp [generatePrimitiveActions]
  have hne : generatePrimitiveActions npc world ≠ [] := List.ne_nil_of_mem hmem
  have hall : generatePrimitiveActions npc world ++ generateMemoryBasedActions npc world ≠ [] := by
    intro hcontra
    rw [List.append_eq_nil] at hcontra
    exact hne hcontra.1
  obtain ⟨o, hsel, _⟩ := selectActionE_mem _ c e hall
  refine ⟨hmem, hne, by rw [hsel]; rfl, ?_⟩
  simp only [selectNextActionE, hsel]
  rw [updateIdentityWithAction_action]
  rfl

/-- C1 counterexample: with `randomness = 1` and two equally-scored
options, the selected action depends on the value drawn from the freshly
`random_device`-seeded generator (the `entropy` argument): draws `0` and
`1` from the same input world data, parameters and any notional seed give
different selections, so the tick result is not a function of world,
parameters and seed. -/
theorem selectAction_entropy_dependent :
    selectActionE [⟨.Move, none, none, [], false⟩, ⟨.Gesture, none, none, [], false⟩]
        ⟨[], 0, 0, 1⟩ 0 ≠
      selectActionE [⟨.Move, none, none, [], false⟩, ⟨.Gesture, none, none, [], false⟩]
        ⟨[], 0, 0, 1⟩ 1 := by
  have hscore : ∀ o : ActionOption, totalScore o ⟨[], 0, 0, 1⟩ =
      (if o.from_memory then (0:ℚ) * 10 else 0) +
      (if o.target_entity.isSome then (0:ℚ) * 5 else 0) := by
    intro o
    simp [totalScore, calculateDriveScore, calculatePreferenceScore]
  have hsorted :
      ((([⟨.Move, none, none, [], false⟩, ⟨.Gesture, none, none, [], false⟩] :
        List ActionOption).map
          (fun o => totalScore o ⟨[], 0, 0, 1⟩)).enum.insertionSort scoreGe) =
      [(0, 0), (1, 0)] := by
    simp only [List.map_cons, List.map_nil, hscore, List.enum]
    norm_num [List.insertionSort, List.orderedInsert, scoreGe, List.enumFrom]
  simp only [selectActionE, hsorted]
  norm_num
  decide

/-- C1 amended: with `randomness = 0` the selection never consults the
random source — the result is the same for every entropy value, i.e. a
deterministic function of the option list and the criteria. -/
theorem selectAction_deterministic_at_zero_randomness :
    ∀ (options : List ActionOption) (c : ActionSelectionCriteria) (e₁ e₂ : ℕ),
      c.randomness = 0 →
      selectActionE options c e₁ = selectActionE options c e₂ := by
  intro options c e₁ e₂ hr
  simp [selectActionE, hr]

/-- Witness for `selectAction_deterministic_at_zero_randomness`. -/
theorem selectAction_deterministic_at_zero_randomness_witness :
    selectActionE [⟨.Move, none, none, [], false⟩] ⟨[], 0, 0, 0⟩ 5 =
      selectActionE [⟨.Move, none, none, [], false⟩] ⟨[], 0, 0, 0⟩ 7 :=
  selectAction_deterministic_at_zero_randomness
    [⟨.Move, none, none, [], false⟩] ⟨[], 0, 0, 0⟩ 5 7 rfl

/-- C5: executing `Move` (or `Follow`, which dispatches to the same code)
toward an entity target leaves the agent in place when the distance is
below 10, and otherwise moves it by exactly `min 30 distance` in the
direction of the target: an agent at the origin with its target at
`(100, 0)` ends at `(30, 0)`, with its target at `(5, 0)` it stays at the
origin; the position update rebuilds only the moving agent's record,
keeping its id, action and target snapshot. -/
theorem move_with_entity_target_spec :
    (∀ p t : ℝ × ℝ,
      Real.sqrt ((t.1 - p.1) * (t.1 - p.1) + (t.2 - p.2) * (t.2 - p.2)) < 10 →
      moveTowardEntityTarget p t = p)
    ∧ (∀ p t : ℝ × ℝ,
        10 ≤ Real.sqrt ((t.1 - p.1) * (t.1 - p.1) + (t.2 - p.2) * (t.2 - p.2)) →
        moveTowardEntityTarget p t =
          (p.1 + (t.1 - p.1) /
              Real.sqrt ((t.1 - p.1) * (t.1 - p.1) + (t.2 - p.2) * (t.2 - p.2)) *
              min 30 (Real.sqrt ((t.1 - p.1) * (t.1 - p.1) + (t.2 - p.2) * (t.2 - p.2))),
            p.2 + (t.2 - p.2) /
              Real.sqrt ((t.1 - p.1) * (t.1 - p.1) + (t.2 - p.2) * (t.2 - p.2)) *
              min 30 (Real.sqrt ((t.1 - p.1) * (t.1 - p.1) + (t.2 - p.2) * (t.2 - p.2))))
        ∧ Real.sqrt
            (((moveTowardEntityTarget p t).1 - p.1) * ((moveTowardEntityTarget p t).1 - p.1)
              + ((moveTowardEntityTarget p t).2 - p.2) * ((moveTowardEntityTarget p t).2 - p.2)) =
          min 30 (Real.sqrt ((t.1 - p.1) * (t.1 - p.1) + (t.2 - p.2) * (t.2 - p.2))))
    ∧ moveTowardEntityTarget (0, 0) (100, 0) = (30, 0)
    ∧ moveTowardEntityTarget (0, 0) (5, 0) = (0, 0)
    ∧ (∀ (npc : NPC) (pos : Position),
        (updateNPCPosition npc pos).identity.entity.id = npc.identity.entity.id
        ∧ (updateNPCPosition npc pos).identity.entity.position = pos
        ∧ (updateNPCPosition npc pos).identity.current_action = npc.identity.current_action
        ∧ (npc.identity.current_action.isSome → npc.identity.target_entity.isSome →
            (updateNPCPosition npc pos).identity.target_entity = npc.identity.target_entity)
        ∧ (updateNPCPosition npc pos).drives = npc.drives
        ∧ (updateNPCPosition npc pos).episodic_memory = npc.episodic_memory) := by
  have hsqrt100 : Real.sqrt ((100 - 0) * (100 - 0) + (0 - 0) * (0 - 0)) = 100 := by
    rw [show ((100:ℝ) - 0) * (100 - 0) + (0 - 0) * (0 - 0) = 100 ^ 2 by norm_num]
    exact Real.sqrt_sq (by norm_num)
  have hsqrt25 : Real.sqrt ((5 - 0) * (5 - 0) + (0 - 0) * (0 - 0)) = 5 := by
    rw [show ((5:ℝ) - 0) * (5 - 0) + (0 - 0) * (0 - 0) = 5 ^ 2 by norm_num]
    exact Real.sqrt_sq (by norm_num)
  refine ⟨?_, ?_, ?_, ?_, ?_⟩
  · intro p t h
    simp only [moveTowardEntityTarget]
    rw [if_pos h]
  · intro p t h
    have hmove : moveTowardEntityTarget p t =
        (p.1 + (t.1 - p.1) /
            Real.sqrt ((t.1 - p.1) * (t.1 - p.1) + (t.2 - p.2) * (t.2 - p.2)) *
            min 30 (Real.sqrt ((t.1 - p.1) * (t.1 - p.1) + (t.2 - p.2) * (t.2 - p.2))),
          p.2 + (t.2 - p.2) /
            Real.sqrt ((t.1 - p.1) * (t.1 - p.1) + (t.2 - p.2) * (t.2 - p.2)) *
            min 30 (Real.sqrt ((t.1 - p.1) * (t.1 - p.1) + (t.2 - p.2) * (t.2 - p.2)))) := by
      simp only [moveTowardEntityTarget]
      rw [if_neg (not_lt.mpr h)]
    refine ⟨hmove, ?_⟩
    set dx : ℝ := t.1 - p.1 with hdx
    set dy : ℝ := t.2 - p.2 with hdy
    set d : ℝ := Real.sqrt (dx * dx + dy * dy) with hd
    have hS : (0:ℝ) ≤ dx * dx + dy * dy := by nlinarith
    have hdd : d * d = dx * dx + dy * dy := Real.mul_self_sqrt hS
    have hdpos : (0:ℝ) < d := lt_of_lt_of_le (by norm_num) h
    have hapos : (0:ℝ) ≤ min 30 d := le_min (by norm_num) hdpos.le
    rw [hmove]
    have hsimp : (p.1 + dx / d * min 30 d - p.1) * (p.1 + dx / d * min 30 d - p.1)
        + (p.2 + dy / d * min 30 d - p.2) * (p.2 + dy / d * min 30 d - p.2) =
        min 30 d * min 30 d := by
      have hdne : d ≠ 0 := ne_of_gt hdpos
      field_simp
      nlinarith [hdd]
    rw [hsimp, Real.sqrt_mul_self hapos]
  · simp only [moveTowardEntityTarget, hsqrt100]
    rw [if_neg (by norm_num)]
    norm_num
  · simp only [moveTowardEntityTarget, hsqrt25]
    rw [if_pos (by norm_num)]
  · intro npc pos
    rcases hnpc : npc.identity with ⟨ent, act, te, tob⟩
    rcases act with _ | a <;> rcases te with _ | t <;> rcases tob with _ | ob <;>
      simp [updateNPCPosition, hnpc]

/-- Witness for `move_with_entity_target_spec`: the arrival clamp applied
at the concrete S3 inputs. -/
theorem move_with_entity_target_spec_witness :
    moveTowardEntityTarget (0, 0) (5, 0) = (0, 0) := by
  apply move_with_entity_target_spec.1 (0, 0) (5, 0)
  have h25 : Real.sqrt (25:ℝ) = 5 := by
    rw [show (25:ℝ) = 5 ^ 2 by norm_num]
    exact Real.sqrt_sq (by norm_num)
  norm_num [h25]

/-- C2, failing input: an agent whose episodic memory holds one two-step
episode (`repetition_count = 1`) and whose buffer yields one significant
three-step candidate.  No existing episode matches the candidate's step
count, yet `findSimilarEpisode` falls back to `episodes[0]`, whose
`repetition_count = 1 > 0` passes the "real episode" check, so the code
appends a copy of the unrelated two-step episode with `repetition_count =
2` — instead of a new three-step episode with `repetition_count = 1`. -/
theorem formEpisodicMemories_reinforces_unrelated_episode :
    (identifyActionSequences
        [⟨100, ⟨⟨"X", ⟨0, 0⟩⟩, none, none, none⟩, .Observe, none, none⟩,
         ⟨101, ⟨⟨"X", ⟨0, 0⟩⟩, none, none, none⟩, .Observe, none, none⟩,
         ⟨102, ⟨⟨"X", ⟨0, 0⟩⟩, none, none, none⟩, .Observe, none, none⟩] 5 2 =
      [[⟨100, ⟨⟨"X", ⟨0, 0⟩⟩, none, none, none⟩, .Observe, none, none⟩,
        ⟨101, ⟨⟨"X", ⟨0, 0⟩⟩, none, none, none⟩, .Observe, none, none⟩,
        ⟨102, ⟨⟨"X", ⟨0, 0⟩⟩, none, none, none⟩, .Observe, none, none⟩]])
    ∧ (formEpisodicMemories
        ⟨⟨⟨"A", ⟨0, 0⟩⟩, none, none, none⟩, [],
         [⟨100, ⟨⟨"X", ⟨0, 0⟩⟩, none, none, none⟩, .Observe, none, none⟩,
          ⟨101, ⟨⟨"X", ⟨0, 0⟩⟩, none, none, none⟩, .Observe, none, none⟩,
          ⟨102, ⟨⟨"X", ⟨0, 0⟩⟩, none, none, none⟩, .Observe, none, none⟩],
         [⟨10, 11, ⟨"old",
            [⟨⟨10, ⟨⟨"X", ⟨0, 0⟩⟩, none, none, none⟩, .Observe, none, none⟩, 0⟩,
             ⟨⟨11, ⟨⟨"X", ⟨0, 0⟩⟩, none, none, none⟩, .Observe, none, none⟩, 1⟩]⟩,
           [⟨.Curiosity, -1/5⟩], 1⟩],
         [], []⟩
        200 (1/10) 5 2).episodic_memory =
      [⟨10, 11, ⟨"old",
          [⟨⟨10, ⟨⟨"X", ⟨0, 0⟩⟩, none, none, none⟩, .Observe, none, none⟩, 0⟩,
           ⟨⟨11, ⟨⟨"X", ⟨0, 0⟩⟩, none, none, none⟩, .Observe, none, none⟩, 1⟩]⟩,
         [⟨.Curiosity, -1/5⟩], 1⟩,
       ⟨10, 11, ⟨"old",
          [⟨⟨10, ⟨⟨"X", ⟨0, 0⟩⟩, none, none, none⟩, .Observe, none, none⟩, 0⟩,
           ⟨⟨11, ⟨⟨"X", ⟨0, 0⟩⟩, none, none, none⟩, .Observe, none, none⟩, 1⟩]⟩,
         [⟨.Curiosity, -1/5⟩], 2⟩] := by
  have hseq : identifyActionSequences
      [⟨100, ⟨⟨"X", ⟨0, 0⟩⟩, none, none, none⟩, .Observe, none, none⟩,
       ⟨101, ⟨⟨"X", ⟨0, 0⟩⟩, none, none, none⟩, .Observe, none, none⟩,
       ⟨102, ⟨⟨"X", ⟨0, 0⟩⟩, none, none, none⟩, .Observe, none, none⟩] 5 2 =
      [[⟨100, ⟨⟨"X", ⟨0, 0⟩⟩, none, none, none⟩, .Observe, none, none⟩,
        ⟨101, ⟨⟨"X", ⟨0, 0⟩⟩, none, none, none⟩, .Observe, none, none⟩,
        ⟨102, ⟨⟨"X", ⟨0, 0⟩⟩, none, none, none⟩, .Observe, none, none⟩]] := by
    norm_num [identifyActionSequences, sortByTimestamp, List.insertionSort,
      List.orderedInsert, identifyLoop]
  refine ⟨hseq, ?_⟩
  have himp : evaluateSequenceImpact
      (⟨⟨⟨"A", ⟨0, 0⟩⟩, none, none, none⟩, [],
         [⟨100, ⟨⟨"X", ⟨0, 0⟩⟩, none, none, none⟩, .Observe, none, none⟩,
          ⟨101, ⟨⟨"X", ⟨0, 0⟩⟩, none, none, none⟩, .Observe, none, none⟩,
          ⟨102, ⟨⟨"X", ⟨0, 0⟩⟩, none, none, none⟩, .Observe, none, none⟩],
         [⟨10, 11, ⟨"old",
          [⟨⟨10, ⟨⟨"X", ⟨0, 0⟩⟩, none, none, none⟩, .Observe, none, none⟩, 0⟩,
           ⟨⟨11, ⟨⟨"X", ⟨0, 0⟩⟩, none, none, none⟩, .Observe, none, none⟩, 1⟩]⟩,
         [⟨.Curiosity, -1/5⟩], 1⟩],
         [], []⟩ : NPC)
      [⟨100, ⟨⟨"X", ⟨0, 0⟩⟩, none, none, none⟩, .Observe, none, none⟩,
       ⟨101, ⟨⟨"X", ⟨0, 0⟩⟩, none, none, none⟩, .Observe, none, none⟩,
       ⟨102, ⟨⟨"X", ⟨0, 0⟩⟩, none, none, none⟩, .Observe, none, none⟩] =
      [⟨.Curiosity, -33/125⟩] := by
    norm_num [evaluateSequenceImpact, evaluateImpact, getActionImpacts, adjustImpacts,
      findActorRelationship, findContextLocationRelationship, findRelationshipEntity,
      findLocationRelationship, getFamiliarity, addImpact, replaceFirstImpact]
  have hsig : hasEmotionalSignificance [[⟨.Curiosity, -33/125⟩]] (1/10) = true := by
    norm_num [hasEmotionalSignificance]
    exact le_trans (by norm_num) (le_abs_self _)
  have hfind : ∀ sid : String,
      findSimilarEpisode
        [⟨10, 11, ⟨"old",
          [⟨⟨10, ⟨⟨"X", ⟨0, 0⟩⟩, none, none, none⟩, .Observe, none, none⟩, 0⟩,
           ⟨⟨11, ⟨⟨"X", ⟨0, 0⟩⟩, none, none, none⟩, .Observe, none, none⟩, 1⟩]⟩,
         [⟨.Curiosity, -1/5⟩], 1⟩]
        (createActionSequence
          [⟨100, ⟨⟨"X", ⟨0, 0⟩⟩, none, none, none⟩, .Observe, none, none⟩,
           ⟨101, ⟨⟨"X", ⟨0, 0⟩⟩, none, none, none⟩, .Observe, none, none⟩,
           ⟨102, ⟨⟨"X", ⟨0, 0⟩⟩, none, none, none⟩, .Observe, none, none⟩] sid) =
        (⟨10, 11, ⟨"old",
          [⟨⟨10, ⟨⟨"X", ⟨0, 0⟩⟩, none, none, none⟩, .Observe, none, none⟩, 0⟩,
           ⟨⟨11, ⟨⟨"X", ⟨0, 0⟩⟩, none, none, none⟩, .Observe, none, none⟩, 1⟩]⟩,
         [⟨.Curiosity, -1/5⟩], 1⟩ : MemoryEpisode) := by
    intro sid
    norm_num [findSimilarEpisode, createActionSequence, stepsFrom]
  simp only [formEpisodicMemories, hseq, List.isEmpty_cons, Bool.false_eq_true, if_false,
    List.filterMap_cons, List.filterMap_nil, himp, hsig, hfind, if_true]
  norm_num

/-- Truncation toward zero moves by at most one cell when the input moves
by at most one. -/
theorem ratTrunc_sub_le (u v : ℚ) (h : |u - v| ≤ 1) :
    -1 ≤ ratTrunc u - ratTrunc v ∧ ratTrunc u - ratTrunc v ≤ 1 := by
  obtain ⟨h1, h2⟩ := abs_le.mp h
  have huv : u ≤ v + 1 := by linarith
  have hvu : v ≤ u + 1 := by linarith
  have hf1 : ⌊u⌋ ≤ ⌊v⌋ + 1 := by
    have := Int.floor_le_floor huv
    rwa [Int.floor_add_one] at this
  have hf2 : ⌊v⌋ ≤ ⌊u⌋ + 1 := by
    have := Int.floor_le_floor hvu
    rwa [Int.floor_add_one] at this
  have hc1 : ⌈u⌉ ≤ ⌈v⌉ + 1 := by
    have := Int.ceil_le_ceil huv
    rwa [Int.ceil_add_one] at this
  have hc2 : ⌈v⌉ ≤ ⌈u⌉ + 1 := by
    have := Int.ceil_le_ceil hvu
    rwa [Int.ceil_add_one] at this
  have hfc_u : ⌊u⌋ ≤ ⌈u⌉ ∧ ⌈u⌉ ≤ ⌊u⌋ + 1 := ⟨Int.floor_le_ceil u, Int.ceil_le_floor_add_one u⟩
  have hfc_v : ⌊v⌋ ≤ ⌈v⌉ ∧ ⌈v⌉ ≤ ⌊v⌋ + 1 := ⟨Int.floor_le_ceil v, Int.ceil_le_floor_add_one v⟩
  simp only [ratTrunc]
  split <;> rename_i hu <;> split <;> rename_i hv
  · omega
  · -- u ≥ 0, v < 0 : ⌊u⌋ ≥ 0, ⌈v⌉ ≤ 0
    have h3 : 0 ≤ ⌊u⌋ := Int.floor_nonneg.mpr hu
    have h4 : ⌈v⌉ ≤ 0 := by
      rw [show (0:ℤ) = ((0:ℕ):ℤ) from rfl]
      exact Int.ceil_le.mpr (by push_cast; linarith)
    omega
  · -- u < 0, v ≥ 0
    have h3 : 0 ≤ ⌊v⌋ := Int.floor_nonneg.mpr hv
    have h4 : ⌈u⌉ ≤ 0 := by
      rw [show (0:ℤ) = ((0:ℕ):ℤ) from rfl]
      exact Int.ceil_le.mpr (by push_cast; linarith)
    omega
  · omega

/-- If the squared distance is within the squared radius, the two cell
indices differ by at most one in each coordinate. -/
theorem cell_diff_le (p q : Position) (R : ℚ) (hR : 0 < R)
    (h : calculateDistanceSq p q ≤ R * R) :
    (-1 ≤ (getCellIndices q R).1 - (getCellIndices p R).1
      ∧ (getCellIndices q R).1 - (getCellIndices p R).1 ≤ 1)
    ∧ (-1 ≤ (getCellIndices q R).2 - (getCellIndices p R).2
      ∧ (getCellIndices q R).2 - (getCellIndices p R).2 ≤ 1) := by
  simp only [calculateDistanceSq] at h
  have habs : ∀ a b : ℚ, a * a ≤ R * R → |a / R - b / R| ≤ 1 → True := fun _ _ _ _ => trivial
  have key : ∀ a b : ℚ, (a - b) * (a - b) ≤ R * R →
      -1 ≤ ratTrunc (b / R) - ratTrunc (a / R) ∧ ratTrunc (b / R) - ratTrunc (a / R) ≤ 1 := by
    intro a b hab
    have habsle : |a - b| ≤ R := by
      by_contra hcon
      push_neg at hcon
      have h0 : 0 ≤ |a - b| := abs_nonneg _
      nlinarith [abs_mul_abs_self (a - b)]
    have hdiv : |b / R - a / R| ≤ 1 := by
      have : b / R - a / R = (b - a) / R := by ring
      rw [this, abs_div, abs_of_pos hR]
      rw [div_le_one hR]
      rw [abs_sub_comm] at habsle
      exact habsle
    exact ratTrunc_sub_le (b / R) (a / R) hdiv
  constructor
  · exact key p.x q.x (by nlinarith [mul_self_nonneg (p.y - q.y)])
  · exact key p.y q.y (by nlinarith [mul_self_nonneg (p.x - q.x)])

/-- An integer pair with both coordinates in `[-1, 1]` is one of the nine
scan offsets. -/
theorem mem_cellOffsets_of_bounds (a b : ℤ) (ha1 : -1 ≤ a) (ha2 : a ≤ 1)
    (hb1 : -1 ≤ b) (hb2 : b ≤ 1) : (a, b) ∈ cellOffsets := by
  have ha : a = -1 ∨ a = 0 ∨ a = 1 := by omega
  have hb : b = -1 ∨ b = 0 ∨ b = 1 := by omega
  rcases ha with rfl | rfl | rfl <;> rcases hb with rfl | rfl | rfl <;> simp [cellOffsets]

/-- Counting through `filterMap` with a function that produces the counted
value exactly on one source value. -/
theorem count_filterMap_eq {α β : Type} [DecidableEq α] [DecidableEq β]
    (l : List α) (g : α → Option β) (p : β) (b : α)
    (hb : g b = some p) (huniq : ∀ x, g x = some p → x = b) :
    (l.filterMap g).count p = l.count b := by
  induction l with
  | nil => simp
  | cons a t ih =>
    rw [List.filterMap_cons]
    by_cases hab : a = b
    · subst hab
      rw [hb]
      simp [List.count_cons, ih]
    · cases hga : g a with
      | none => simp [List.count_cons, hab, ih]
      | some q =>
        have hqp : q ≠ p := fun hq => hab (huniq a (hq ▸ hga))
        simp [List.count_cons, hab, hqp, ih]

/-- Counting through `filterMap` when no source value produces the counted
value. -/
theorem count_filterMap_zero {α β : Type} [DecidableEq α] [DecidableEq β]
    (l : List α) (g : α → Option β) (p : β)
    (hnone : ∀ x, g x ≠ some p) :
    (l.filterMap g).count p = 0 := by
  rw [List.count_eq_zero]
  intro hmem
  obtain ⟨x, _, hx⟩ := List.mem_filterMap.mp hmem
  exact hnone x hx

/-- A sum of mapped values over a nodup list all of whose entries except
one vanish. -/
theorem sum_map_eq_single {α : Type} [DecidableEq α] (l : List α) (f : α → ℕ) (a : α)
    (hnd : l.Nodup) (ha : a ∈ l) (hz : ∀ b ∈ l, b ≠ a → f b = 0) :
    (l.map f).sum = f a := by
  induction l with
  | nil => simp at ha
  | cons x t ih =>
    rw [List.map_cons, List.sum_cons]
    rcases List.mem_cons.mp ha with rfl | hat
    · have hzt : ∀ b ∈ t, f b = 0 := fun b hb =>
        hz b (List.mem_cons_of_mem _ hb) (fun hba => (List.nodup_cons.mp hnd).1 (hba ▸ hb))
      have : (t.map f).sum = 0 := by
        apply List.sum_eq_zero
        intro y hy
        obtain ⟨b, hb, rfl⟩ := List.mem_map.mp hy
        exact hzt b hb
      omega
    · have hx0 : f x = 0 := hz x (List.mem_cons_self _ _)
        (fun hxa => (List.nodup_cons.mp hnd).1 (hxa ▸ hat))
      rw [hx0, ih (List.nodup_cons.mp hnd).2 hat
        (fun b hb hba => hz b (List.mem_cons_of_mem _ hb) hba)]
      omega

/-- A sum of mapped values over a nodup list all of whose entries vanish. -/
theorem sum_map_eq_zero {α : Type} (l : List α) (f : α → ℕ)
    (hz : ∀ b ∈ l, f b = 0) : (l.map f).sum = 0 := by
  apply List.sum_eq_zero
  intro y hy
  obtain ⟨b, hb, rfl⟩ := List.mem_map.mp hy
  exact hz b hb

/-- Every pair a cell scan emits carries the scanning observer. -/
theorem scanCell_perceiver (npc : NPC) (w : World) (R : ℚ) (idx : ℤ × ℤ)
    (q : PerceptionPair) (h : q ∈ scanCell npc w R idx) : q.perceiver = npc := by
  simp only [scanCell, List.mem_append, List.mem_filterMap] at h
  rcases h with ⟨x, -, hx⟩ | ⟨x, -, hx⟩ <;> split_ifs at hx <;> cases hx <;> rfl

/-- Count of one observer's npc-pair in a single cell scan, when the pair
qualifies (distinct ids, within range). -/
theorem scanCell_count_npc (a b : NPC) (w : World) (R : ℚ) (idx : ℤ × ℤ)
    (hid : npcId a ≠ npcId b)
    (hrange : calculateDistanceSq (npcPos a) (npcPos b) ≤ R * R) :
    (scanCell a w R idx).count
        ⟨a, .npc b, calculateDistanceSq (npcPos a) (npcPos b)⟩ =
      (cellNpcs w R idx).count b := by
  simp only [scanCell, List.count_append]
  have hobj : ((cellObjects w R idx).filterMap (fun obj =>
      if calculateDistanceSq (npcPos a) obj.entity.position ≤ R * R then
        some (⟨a, .object obj, calculateDistanceSq (npcPos a) obj.entity.position⟩ :
          PerceptionPair)
      else none)).count ⟨a, .npc b, calculateDistanceSq (npcPos a) (npcPos b)⟩ = 0 := by
    apply count_filterMap_zero
    intro x
    split_ifs <;> simp
  rw [hobj, Nat.add_zero]
  refine count_filterMap_eq _ _ _ b ?_ ?_
  · simp only [if_neg hid, if_pos hrange]
  · intro x hx
    split_ifs at hx
    injection hx with h
    replace h := congrArg PerceptionPair.perceived h
    simpa using h

/-- Count of one observer's npc-pair in a single cell scan, when the pair
does not qualify: zero. -/
theorem scanCell_count_npc_zero (a b : NPC) (w : World) (R : ℚ) (idx : ℤ × ℤ)
    (h : ¬(npcId a ≠ npcId b ∧ calculateDistanceSq (npcPos a) (npcPos b) ≤ R * R)) :
    (scanCell a w R idx).count
        ⟨a, .npc b, calculateDistanceSq (npcPos a) (npcPos b)⟩ = 0 := by
  simp only [scanCell, List.count_append]
  have hobj : ((cellObjects w R idx).filterMap (fun obj =>
      if calculateDistanceSq (npcPos a) obj.entity.position ≤ R * R then
        some (⟨a, .object obj, calculateDistanceSq (npcPos a) obj.entity.position⟩ :
          PerceptionPair)
      else none)).count ⟨a, .npc b, calculateDistanceSq (npcPos a) (npcPos b)⟩ = 0 := by
    apply count_filterMap_zero
    intro x
    split_ifs <;> simp
  rw [hobj, Nat.add_zero]
  apply count_filterMap_zero
  intro x
  dsimp only
  split_ifs with h1 h2
  · simp
  · intro hx
    cases hx
    exact h ⟨h1, h2⟩
  · simp

/-- Cell membership of an NPC is by its cell index. -/
theorem count_cellNpcs (w : World) (R : ℚ) (idx : ℤ × ℤ) (b : NPC) :
    (cellNpcs w R idx).count b =
      if getCellIndices (npcPos b) R = idx then w.npcs.count b else 0 := by
  simp only [cellNpcs]
  split <;> rename_i hcell
  · exact List.count_filter (by simpa using hcell)
  · rw [List.count_eq_zero]
    intro hmem
    exact hcell (by simpa using (List.mem_filter.mp hmem).2)

/-- The count of a qualifying npc-pair over the whole 3×3 scan of one
observer is exactly one; a non-qualifying pair is never emitted. -/
theorem npcPerceptions_count (a b : NPC) (w : World) (R : ℚ) (hR : 0 < R)
    (hnd : w.npcs.Nodup) (hb : b ∈ w.npcs) :
    (cellOffsets.flatMap (fun off =>
        scanCell a w R (getCellIndices (npcPos a) R + off))).count
      ⟨a, .npc b, calculateDistanceSq (npcPos a) (npcPos b)⟩ =
      if npcId a ≠ npcId b ∧ calculateDistanceSq (npcPos a) (npcPos b) ≤ R * R
      then 1 else 0 := by
  rw [List.count_flatMap]
  split <;> rename_i hcond
  · obtain ⟨hid, hrange⟩ := hcond
    have hdiff := cell_diff_le (npcPos a) (npcPos b) R hR hrange
    have hoff : ((getCellIndices (npcPos b) R).1 - (getCellIndices (npcPos a) R).1,
        (getCellIndices (npcPos b) R).2 - (getCellIndices (npcPos a) R).2) ∈ cellOffsets :=
      mem_cellOffsets_of_bounds _ _ hdiff.1.1 hdiff.1.2 hdiff.2.1 hdiff.2.2
    rw [sum_map_eq_single cellOffsets _
      ((getCellIndices (npcPos b) R).1 - (getCellIndices (npcPos a) R).1,
        (getCellIndices (npcPos b) R).2 - (getCellIndices (npcPos a) R).2)
      (by decide) hoff ?_]
    · simp only [Function.comp_apply]
      rw [scanCell_count_npc a b w R _ hid hrange, count_cellNpcs]
      have hcell : getCellIndices (npcPos b) R = getCellIndices (npcPos a) R +
          ((getCellIndices (npcPos b) R).1 - (getCellIndices (npcPos a) R).1,
            (getCellIndices (npcPos b) R).2 - (getCellIndices (npcPos a) R).2) := by
        rw [Prod.ext_iff]
        constructor <;> simp only [Prod.fst_add, Prod.snd_add] <;> omega
      rw [if_pos hcell]
      exact List.count_eq_one_of_mem hnd hb
    · intro off hoffmem hne
      simp only [Function.comp_apply]
      rw [scanCell_count_npc a b w R _ hid hrange, count_cellNpcs]
      rw [if_neg ?_]
      intro hcontra
      apply hne
      obtain ⟨h1, h2⟩ := Prod.ext_iff.mp hcontra
      simp only [Prod.fst_add, Prod.snd_add] at h1 h2
      rw [Prod.ext_iff]
      constructor <;> omega
  · apply sum_map_eq_zero
    intro off hoffmem
    simp only [Function.comp_apply]
    exact scanCell_count_npc_zero a b w R _ hcond

/-- Count of one observer's object-pair in a single cell scan, when the
pair is within range. -/
theorem scanCell_count_obj (a : NPC) (o : WorldObject) (w : World) (R : ℚ) (idx : ℤ × ℤ)
    (hrange : calculateDistanceSq (npcPos a) o.entity.position ≤ R * R) :
    (scanCell a w R idx).count
        ⟨a, .object o, calculateDistanceSq (npcPos a) o.entity.position⟩ =
      (cellObjects w R idx).count o := by
  simp only [scanCell, List.count_append]
  have hnpc : ((cellNpcs w R idx).filterMap (fun other =>
      if npcId a = npcId other then none
      else if calculateDistanceSq (npcPos a) (npcPos other) ≤ R * R then
        some (⟨a, .npc other, calculateDistanceSq (npcPos a) (npcPos other)⟩ : PerceptionPair)
      else none)).count ⟨a, .object o, calculateDistanceSq (npcPos a) o.entity.position⟩ = 0 := by
    apply count_filterMap_zero
    intro x
    split_ifs <;> simp
  rw [hnpc, Nat.zero_add]
  refine count_filterMap_eq _ _ _ o ?_ ?_
  · simp only [if_pos hrange]
  · intro x hx
    split_ifs at hx
    injection hx with h
    replace h := congrArg PerceptionPair.perceived h
    simpa using h

/-- Count of one observer's object-pair in a single cell scan, when the
pair is out of range: zero. -/
theorem scanCell_count_obj_zero (a : NPC) (o : WorldObject) (w : World) (R : ℚ) (idx : ℤ × ℤ)
    (h : ¬ calculateDistanceSq (npcPos a) o.entity.position ≤ R * R) :
    (scanCell a w R idx).count
        ⟨a, .object o, calculateDistanceSq (npcPos a) o.entity.position⟩ = 0 := by
  simp only [scanCell, List.count_append]
  have hnpc : ((cellNpcs w R idx).filterMap (fun other =>
      if npcId a = npcId other then none
      else if calculateDistanceSq (npcPos a) (npcPos other) ≤ R * R then
        some (⟨a, .npc other, calculateDistanceSq (npcPos a) (npcPos other)⟩ : PerceptionPair)
      else none)).count ⟨a, .object o, calculateDistanceSq (npcPos a) o.entity.position⟩ = 0 := by
    apply count_filterMap_zero
    intro x
    split_ifs <;> simp
  rw [hnpc, Nat.zero_add]
  apply count_filterMap_zero
  intro x
  dsimp only
  split_ifs with h1
  · intro hx
    injection hx with hx
    have h2 := congrArg PerceptionPair.perceived hx
    simp only at h2
    cases h2
    exact h h1
  · simp

/-- Cell membership of an object is by its cell index. -/
theorem count_cellObjects (w : World) (R : ℚ) (idx : ℤ × ℤ) (o : WorldObject) :
    (cellObjects w R idx).count o =
      if getCellIndices o.entity.position R = idx then w.objects.count o else 0 := by
  simp only [cellObjects]
  split <;> rename_i hcell
  · exact List.count_filter (by simpa using hcell)
  · rw [List.count_eq_zero]
    intro hmem
    exact hcell (by simpa using (List.mem_filter.mp hmem).2)

/-- The count of an in-range object-pair over the whole 3×3 scan of one
observer is exactly one; an out-of-range pair is never emitted. -/
theorem npcPerceptions_count_obj (a : NPC) (o : WorldObject) (w : World) (R : ℚ) (hR : 0 < R)
    (hnd : w.objects.Nodup) (ho : o ∈ w.objects) :
    (cellOffsets.flatMap (fun off =>
        scanCell a w R (getCellIndices (npcPos a) R + off))).count
      ⟨a, .object o, calculateDistanceSq (npcPos a) o.entity.position⟩ =
      if calculateDistanceSq (npcPos a) o.entity.position ≤ R * R then 1 else 0 := by
  rw [List.count_flatMap]
  split <;> rename_i hcond
  · have hdiff := cell_diff_le (npcPos a) o.entity.position R hR hcond
    have hoff : ((getCellIndices o.entity.position R).1 - (getCellIndices (npcPos a) R).1,
        (getCellIndices o.entity.position R).2 - (getCellIndices (npcPos a) R).2) ∈
        cellOffsets :=
      mem_cellOffsets_of_bounds _ _ hdiff.1.1 hdiff.1.2 hdiff.2.1 hdiff.2.2
    rw [sum_map_eq_single cellOffsets _
      ((getCellIndices o.entity.position R).1 - (getCellIndices (npcPos a) R).1,
        (getCellIndices o.entity.position R).2 - (getCellIndices (npcPos a) R).2)
      (by decide) hoff ?_]
    · simp only [Function.comp_apply]
      rw [scanCell_count_obj a o w R _ hcond, count_cellObjects]
      have hcell : getCellIndices o.entity.position R = getCellIndices (npcPos a) R +
          ((getCellIndices o.entity.position R).1 - (getCellIndices (npcPos a) R).1,
            (getCellIndices o.entity.position R).2 - (getCellIndices (npcPos a) R).2) := by
        rw [Prod.ext_iff]
        constructor <;> simp only [Prod.fst_add, Prod.snd_add] <;> omega
      rw [if_pos hcell]
      exact List.count_eq_one_of_mem hnd ho
    · intro off hoffmem hne
      simp only [Function.comp_apply]
      rw [scanCell_count_obj a o w R _ hcond, count_cellObjects]
      rw [if_neg ?_]
      intro hcontra
      apply hne
      obtain ⟨h1, h2⟩ := Prod.ext_iff.mp hcontra
      simp only [Prod.fst_add, Prod.snd_add] at h1 h2
      rw [Prod.ext_iff]
      constructor <;> omega
  · apply sum_map_eq_zero
    intro off hoffmem
    simp only [Function.comp_apply]
    exact scanCell_count_obj_zero a o w R _ hcond

/-- Bridge between the source's `sqrt(d2) <= R` test and the embedded
`d2 ≤ R*R` test: they agree for nonnegative radius. -/
theorem sqrt_le_iff_sq_le (s R : ℚ) (_hs : 0 ≤ s) (hR : 0 ≤ R) :
    (Real.sqrt (s : ℝ) ≤ (R : ℝ) ↔ s ≤ R * R) := by
  rw [Real.sqrt_le_left (by exact_mod_cast hR)]
  rw [show ((R : ℝ) ^ 2) = ((R * R : ℚ) : ℝ) by push_cast; ring]
  exact_mod_cast Iff.rfl

/-- Everything the sweep emits is a qualifying pair: observer an agent of
the world, observed a distinct-id agent or an object of the world, within
range, carrying the squared distance. -/
theorem calculatePerceptibleEntities_sound (w : World) (R : ℚ) (p : PerceptionPair)
    (h : p ∈ calculatePerceptibleEntities w R) :
    (∃ a b, a ∈ w.npcs ∧ b ∈ w.npcs
      ∧ p = ⟨a, .npc b, calculateDistanceSq (npcPos a) (npcPos b)⟩
      ∧ npcId a ≠ npcId b ∧ calculateDistanceSq (npcPos a) (npcPos b) ≤ R * R)
    ∨ (∃ a o, a ∈ w.npcs ∧ o ∈ w.objects
      ∧ p = ⟨a, .object o, calculateDistanceSq (npcPos a) o.entity.position⟩
      ∧ calculateDistanceSq (npcPos a) o.entity.position ≤ R * R) := by
  simp only [calculatePerceptibleEntities, List.mem_flatMap] at h
  obtain ⟨a, ha, off, hoff, hq⟩ := h
  simp only [scanCell, List.mem_append, List.mem_filterMap] at hq
  rcases hq with ⟨x, hxmem, hx⟩ | ⟨x, hxmem, hx⟩
  · have hxw : x ∈ w.npcs := by
      simp only [cellNpcs, List.mem_filter] at hxmem
      exact hxmem.1
    split_ifs at hx with h1 h2
    injection hx with hx
    exact Or.inl ⟨a, x, ha, hxw, hx.symm, h1, h2⟩
  · have hxw : x ∈ w.objects := by
      simp only [cellObjects, List.mem_filter] at hxmem
      exact hxmem.1
    split_ifs at hx with h1
    injection hx with hx
    exact Or.inr ⟨a, x, ha, hxw, hx.symm, h1⟩

/-- The count of an agent-observes-agent pair over the whole sweep: one per
qualifying ordered pair, zero otherwise. -/
theorem calculatePerceptibleEntities_count_npc (w : World) (R : ℚ) (hR : 0 < R)
    (hids : ((w.npcs.map npcId) ++ (w.objects.map (fun o => o.entity.id))).Nodup)
    (a : NPC) (ha : a ∈ w.npcs) (b : NPC) (hb : b ∈ w.npcs) :
    (calculatePerceptibleEntities w R).count
        ⟨a, .npc b, calculateDistanceSq (npcPos a) (npcPos b)⟩ =
      if npcId a ≠ npcId b ∧ calculateDistanceSq (npcPos a) (npcPos b) ≤ R * R
      then 1 else 0 := by
  have hnd : w.npcs.Nodup := List.Nodup.of_map npcId hids.of_append_left
  rw [calculatePerceptibleEntities, List.count_flatMap]
  rw [sum_map_eq_single w.npcs _ a hnd ha ?_]
  · simp only [Function.comp_apply]
    exact npcPerceptions_count a b w R hR hnd hb
  · intro a' ha' hne
    simp only [Function.comp_apply]
    rw [List.count_eq_zero]
    intro hmem
    obtain ⟨off, hoff, hq⟩ := List.mem_flatMap.mp hmem
    have := scanCell_perceiver a' w R _ _ hq
    simp only at this
    exact hne (by rw [← this])

/-- The count of an agent-observes-object pair over the whole sweep: one
per in-range ordered pair, zero otherwise. -/
theorem calculatePerceptibleEntities_count_obj (w : World) (R : ℚ) (hR : 0 < R)
    (hids : ((w.npcs.map npcId) ++ (w.objects.map (fun o => o.entity.id))).Nodup)
    (a : NPC) (ha : a ∈ w.npcs) (o : WorldObject) (ho : o ∈ w.objects) :
    (calculatePerceptibleEntities w R).count
        ⟨a, .object o, calculateDistanceSq (npcPos a) o.entity.position⟩ =
      if calculateDistanceSq (npcPos a) o.entity.position ≤ R * R then 1 else 0 := by
  have hndn : w.npcs.Nodup := List.Nodup.of_map npcId hids.of_append_left
  have hndo : w.objects.Nodup :=
    List.Nodup.of_map (fun o => o.entity.id) (List.Nodup.of_append_right hids)
  rw [calculatePerceptibleEntities, List.count_flatMap]
  rw [sum_map_eq_single w.npcs _ a hndn ha ?_]
  · simp only [Function.comp_apply]
    exact npcPerceptions_count_obj a o w R hR hndo ho
  · intro a' ha' hne
    simp only [Function.comp_apply]
    rw [List.count_eq_zero]
    intro hmem
    obtain ⟨off, hoff, hq⟩ := List.mem_flatMap.mp hmem
    have := scanCell_perceiver a' w R _ _ hq
    simp only at this
    exact hne (by rw [← this])

/-- C3: the grid-based perception sweep emits exactly one triple per
qualifying ordered pair — observer an agent, observed a different-id agent
or any object, within the radius — and nothing else: (i) the embedded
squared-distance test agrees with the source's `sqrt(d2) ≤ R`; (ii) every
emitted pair is qualifying and carries the squared distance; (iii)/(iv)
every qualifying agent→agent and agent→object pair is emitted exactly
once (distinct entity ids assumed, positive radius); (v) scenario S4:
agents at `(0,0)`, `(3,0)`, `(100,100)`, no objects, radius 10 produce
exactly `A` observes `B` and `B` observes `A`, both at squared distance 9. -/
theorem perception_sweep_spec :
    (∀ (s R : ℚ), 0 ≤ s → 0 ≤ R → (Real.sqrt (s : ℝ) ≤ (R : ℝ) ↔ s ≤ R * R))
    ∧ (∀ (w : World) (R : ℚ) (p : PerceptionPair),
        p ∈ calculatePerceptibleEntities w R →
        (∃ a b, a ∈ w.npcs ∧ b ∈ w.npcs
          ∧ p = ⟨a, .npc b, calculateDistanceSq (npcPos a) (npcPos b)⟩
          ∧ npcId a ≠ npcId b ∧ calculateDistanceSq (npcPos a) (npcPos b) ≤ R * R)
        ∨ (∃ a o, a ∈ w.npcs ∧ o ∈ w.objects
          ∧ p = ⟨a, .object o, calculateDistanceSq (npcPos a) o.entity.position⟩
          ∧ calculateDistanceSq (npcPos a) o.entity.position ≤ R * R))
    ∧ (∀ (w : World) (R : ℚ), 0 < R →
        ((w.npcs.map npcId) ++ (w.objects.map (fun o => o.entity.id))).Nodup →
        ∀ a ∈ w.npcs, ∀ b ∈ w.npcs,
          (calculatePerceptibleEntities w R).count
              ⟨a, .npc b, calculateDistanceSq (npcPos a) (npcPos b)⟩ =
            if npcId a ≠ npcId b ∧ calculateDistanceSq (npcPos a) (npcPos b) ≤ R * R
            then 1 else 0)
    ∧ (∀ (w : World) (R : ℚ), 0 < R →
        ((w.npcs.map npcId) ++ (w.objects.map (fun o => o.entity.id))).Nodup →
        ∀ a ∈ w.npcs, ∀ o ∈ w.objects,
          (calculatePerceptibleEntities w R).count
              ⟨a, .object o, calculateDistanceSq (npcPos a) o.entity.position⟩ =
            if calculateDistanceSq (npcPos a) o.entity.position ≤ R * R then 1 else 0)
    ∧ ((calculatePerceptibleEntities
          ⟨⟨0, 0, 10⟩,
           [⟨⟨⟨"A", ⟨0, 0⟩⟩, none, none, none⟩, [], [], [], [], []⟩,
            ⟨⟨⟨"B", ⟨3, 0⟩⟩, none, none, none⟩, [], [], [], [], []⟩,
            ⟨⟨⟨"C", ⟨100, 100⟩⟩, none, none, none⟩, [], [], [], [], []⟩], []⟩ 10).count
          ⟨⟨⟨⟨"A", ⟨0, 0⟩⟩, none, none, none⟩, [], [], [], [], []⟩,
            .npc ⟨⟨⟨"B", ⟨3, 0⟩⟩, none, none, none⟩, [], [], [], [], []⟩, 9⟩ = 1
      ∧ (calculatePerceptibleEntities
          ⟨⟨0, 0, 10⟩,
           [⟨⟨⟨"A", ⟨0, 0⟩⟩, none, none, none⟩, [], [], [], [], []⟩,
            ⟨⟨⟨"B", ⟨3, 0⟩⟩, none, none, none⟩, [], [], [], [], []⟩,
            ⟨⟨⟨"C", ⟨100, 100⟩⟩, none, none, none⟩, [], [], [], [], []⟩], []⟩ 10).count
          ⟨⟨⟨⟨"B", ⟨3, 0⟩⟩, none, none, none⟩, [], [], [], [], []⟩,
            .npc ⟨⟨⟨"A", ⟨0, 0⟩⟩, none, none, none⟩, [], [], [], [], []⟩, 9⟩ = 1
      ∧ ∀ p ∈ calculatePerceptibleEntities
          ⟨⟨0, 0, 10⟩,
           [⟨⟨⟨"A", ⟨0, 0⟩⟩, none, none, none⟩, [], [], [], [], []⟩,
            ⟨⟨⟨"B", ⟨3, 0⟩⟩, none, none, none⟩, [], [], [], [], []⟩,
            ⟨⟨⟨"C", ⟨100, 100⟩⟩, none, none, none⟩, [], [], [], [], []⟩], []⟩ 10,
          p = ⟨⟨⟨⟨"A", ⟨0, 0⟩⟩, none, none, none⟩, [], [], [], [], []⟩,
                .npc ⟨⟨⟨"B", ⟨3, 0⟩⟩, none, none, none⟩, [], [], [], [], []⟩, 9⟩
          ∨ p = ⟨⟨⟨⟨"B", ⟨3, 0⟩⟩, none, none, none⟩, [], [], [], [], []⟩,
                .npc ⟨⟨⟨"A", ⟨0, 0⟩⟩, none, none, none⟩, [], [], [], [], []⟩, 9⟩) := by
  refine ⟨sqrt_le_iff_sq_le, calculatePerceptibleEntities_sound,
    fun w R hR hids a ha b hb => calculatePerceptibleEntities_count_npc w R hR hids a ha b hb,
    fun w R hR hids a ha o ho => calculatePerceptibleEntities_count_obj w R hR hids a ha o ho,
    ?_, ?_, ?_⟩
  · have hd : calculateDistanceSq
        (npcPos ⟨⟨⟨"A", ⟨0, 0⟩⟩, none, none, none⟩, [], [], [], [], []⟩)
        (npcPos ⟨⟨⟨"B", ⟨3, 0⟩⟩, none, none, none⟩, [], [], [], [], []⟩) = 9 := by
      norm_num [calculateDistanceSq, npcPos]
    have h := calculatePerceptibleEntities_count_npc
      ⟨⟨0, 0, 10⟩,
       [⟨⟨⟨"A", ⟨0, 0⟩⟩, none, none, none⟩, [], [], [], [], []⟩,
        ⟨⟨⟨"B", ⟨3, 0⟩⟩, none, none, none⟩, [], [], [], [], []⟩,
        ⟨⟨⟨"C", ⟨100, 100⟩⟩, none, none, none⟩, [], [], [], [], []⟩], []⟩ 10
      (by norm_num)
      (by simp only [npcId, List.map_cons, List.map_nil, List.append_nil]; decide)
      ⟨⟨⟨"A", ⟨0, 0⟩⟩, none, none, none⟩, [], [], [], [], []⟩ (by simp)
      ⟨⟨⟨"B", ⟨3, 0⟩⟩, none, none, none⟩, [], [], [], [], []⟩ (by simp)
    rw [hd] at h
    rw [h, if_pos ⟨by simp [npcId], by norm_num⟩]
  · have hd : calculateDistanceSq
        (npcPos ⟨⟨⟨"B", ⟨3, 0⟩⟩, none, none, none⟩, [], [], [], [], []⟩)
        (npcPos ⟨⟨⟨"A", ⟨0, 0⟩⟩, none, none, none⟩, [], [], [], [], []⟩) = 9 := by
      norm_num [calculateDistanceSq, npcPos]
    have h := calculatePerceptibleEntities_count_npc
      ⟨⟨0, 0, 10⟩,
       [⟨⟨⟨"A", ⟨0, 0⟩⟩, none, none, none⟩, [], [], [], [], []⟩,
        ⟨⟨⟨"B", ⟨3, 0⟩⟩, none, none, none⟩, [], [], [], [], []⟩,
        ⟨⟨⟨"C", ⟨100, 100⟩⟩, none, none, none⟩, [], [], [], [], []⟩], []⟩ 10
      (by norm_num)
      (by simp only [npcId, List.map_cons, List.map_nil, List.append_nil]; decide)
      ⟨⟨⟨"B", ⟨3, 0⟩⟩, none, none, none⟩, [], [], [], [], []⟩ (by simp)
      ⟨⟨⟨"A", ⟨0, 0⟩⟩, none, none, none⟩, [], [], [], [], []⟩ (by simp)
    rw [hd] at h
    rw [h, if_pos ⟨by simp [npcId], by norm_num⟩]
  · intro p hp
    have hsound := calculatePerceptibleEntities_sound _ 10 p hp
    rcases hsound with ⟨a, b, ha, hb, hpeq, hid, hrange⟩ | ⟨a, o, _, ho, _, _⟩
    · simp only [List.mem_cons, List.not_mem_nil, or_false] at ha hb
      rcases ha with rfl | rfl | rfl
      · rcases hb with rfl | rfl | rfl
        · exact absurd rfl hid
        · exact Or.inl (by rw [hpeq]; norm_num [calculateDistanceSq, npcPos])
        · exfalso
          norm_num [calculateDistanceSq, npcPos] at hrange
      · rcases hb with rfl | rfl | rfl
        · exact Or.inr (by rw [hpeq]; norm_num [calculateDistanceSq, npcPos])
        · exact absurd rfl hid
        · exfalso
          norm_num [calculateDistanceSq, npcPos] at hrange
      · rcases hb with rfl | rfl | rfl
        · exfalso
          norm_num [calculateDistanceSq, npcPos] at hrange
        · exfalso
          norm_num [calculateDistanceSq, npcPos] at hrange
        · exact absurd rfl hid
    · simp at ho

/-- Witness for `perception_sweep_spec`: the qualifying-pair count applied
to the S4 world. -/
theorem perception_sweep_spec_witness :
    (calculatePerceptibleEntities
        ⟨⟨0, 0, 10⟩,
         [⟨⟨⟨"A", ⟨0, 0⟩⟩, none, none, none⟩, [], [], [], [], []⟩,
          ⟨⟨⟨"B", ⟨3, 0⟩⟩, none, none, none⟩, [], [], [], [], []⟩,
          ⟨⟨⟨"C", ⟨100, 100⟩⟩, none, none, none⟩, [], [], [], [], []⟩], []⟩ 10).count
        ⟨⟨⟨⟨"C", ⟨100, 100⟩⟩, none, none, none⟩, [], [], [], [], []⟩,
          .npc ⟨⟨⟨"A", ⟨0, 0⟩⟩, none, none, none⟩, [], [], [], [], []⟩, 20000⟩ = 0 := by
  have hd : calculateDistanceSq
      (npcPos ⟨⟨⟨"C", ⟨100, 100⟩⟩, none, none, none⟩, [], [], [], [], []⟩)
      (npcPos ⟨⟨⟨"A", ⟨0, 0⟩⟩, none, none, none⟩, [], [], [], [], []⟩) = 20000 := by
    norm_num [calculateDistanceSq, npcPos]
  have h := perception_sweep_spec.2.2.1
    ⟨⟨0, 0, 10⟩,
     [⟨⟨⟨"A", ⟨0, 0⟩⟩, none, none, none⟩, [], [], [], [], []⟩,
      ⟨⟨⟨"B", ⟨3, 0⟩⟩, none, none, none⟩, [], [], [], [], []⟩,
      ⟨⟨⟨"C", ⟨100, 100⟩⟩, none, none, none⟩, [], [], [], [], []⟩], []⟩ 10
    (by norm_num)
    (by simp only [npcId, List.map_cons, List.map_nil, List.append_nil]; decide)
    ⟨⟨⟨"C", ⟨100, 100⟩⟩, none, none, none⟩, [], [], [], [], []⟩ (by simp)
    ⟨⟨⟨"A", ⟨0, 0⟩⟩, none, none, none⟩, [], [], [], [], []⟩ (by simp)
  rw [hd] at h
  rw [h, if_neg (by norm_num)]

end HistoryGame
